import Mathlib

/-!
Verification of the PostGraph Cypher front-end and VLE engine.

Shallow embedding of:
  - the parser helper functions of the grammar file
    (make_or_expr, make_and_expr, make_xor_expr, make_not_expr,
     is_A_Expr_a_comparison_operation, build_comparison_expression,
     cypher_range_opt, cypher_varlen_opt, build_VLE_relation),
  - the clause transformer
    (transform_cypher_limit, transform_cypher_with,
     transform_cypher_clause_with_where, transform_match_entities,
     prevent_duplicate_edges, transform_match_path,
     transform_create_cypher_edge, transform_cypher_create_path),
  - the runtime functions of age_vle.c and variable_edge.c
    (_ag_enforce_edge_uniqueness, build_vle_context defaults,
     add_edges, get_next_vertex, dfs_find_a_path_between,
     build_path_container, gtype_vle, and the VariableEdge
     endpoint predicates).

Machine integers (graphid, int64) are modelled as Int; PostgreSQL hash
tables keyed by int64 are modelled as duplicate-free lists of Int;
ereport(ERROR) is modelled with Except/Option.
-/

set_option maxRecDepth 4000
set_option linter.unusedVariables false

/- ===================================================================
   Part 1: parser expression nodes (grammar file)
   =================================================================== -/

/-- Boolean connective tags of BoolExpr nodes (OR_EXPR / AND_EXPR / NOT_EXPR). -/
inductive BoolExprOp where
  | OR_EXPR
  | AND_EXPR
  | NOT_EXPR
deriving DecidableEq, Repr

/-- Parse nodes, restricted to the variants the grammar helper functions
inspect: A_Expr comparison nodes (AEXPR_OP with an operator name and two
operands), BoolExpr nodes with an operand list, and an opaque leaf for
every other node kind (column refs, literals, ...). -/
inductive PNode where
  | aexpr (oprName : String) (lexpr rexpr : PNode)
  | bexpr (boolop : BoolExprOp) (args : List PNode)
  | leaf (tag : Nat)

/-- make_or_expr: flatten a OR b OR c to a single BoolExpr on sight — but
only by inspecting the LEFT operand. -/
def make_or_expr (lexpr rexpr : PNode) : PNode :=
  match lexpr with
  | PNode.bexpr BoolExprOp.OR_EXPR args =>
      PNode.bexpr BoolExprOp.OR_EXPR (args ++ [rexpr])
  | _ => PNode.bexpr BoolExprOp.OR_EXPR [lexpr, rexpr]

/-- make_and_expr: flatten a AND b AND c to a single BoolExpr on sight —
but only by inspecting the LEFT operand. -/
def make_and_expr (lexpr rexpr : PNode) : PNode :=
  match lexpr with
  | PNode.bexpr BoolExprOp.AND_EXPR args =>
      PNode.bexpr BoolExprOp.AND_EXPR (args ++ [rexpr])
  | _ => PNode.bexpr BoolExprOp.AND_EXPR [lexpr, rexpr]

/-- make_not_expr. -/
def make_not_expr (expr : PNode) : PNode :=
  PNode.bexpr BoolExprOp.NOT_EXPR [expr]

/-- make_xor_expr: XOR is desugared to (A OR B) AND (NOT (A AND B)) with
direct makeBoolExpr calls (no flattening). -/
def make_xor_expr (lexpr rexpr : PNode) : PNode :=
  PNode.bexpr BoolExprOp.AND_EXPR
    [PNode.bexpr BoolExprOp.OR_EXPR [lexpr, rexpr],
     PNode.bexpr BoolExprOp.NOT_EXPR
       [PNode.bexpr BoolExprOp.AND_EXPR [lexpr, rexpr]]]

/-- The operator-name test of is_A_Expr_a_comparison_operation.  The
source compares against "<", ">", "<=", "=>", "=", "<>" — note that the
fourth string really is "=>" in the source, not ">=". -/
def comparison_opr_name_matches (oprName : String) : Bool :=
  oprName == "<" || oprName == ">" || oprName == "<=" ||
  oprName == "=>" || oprName == "=" || oprName == "<>"

/-- is_A_Expr_a_comparison_operation, lifted to parse nodes: true only on
an A_Expr whose single-part operator name passes the string test. -/
def is_A_Expr_a_comparison_operation (node : PNode) : Bool :=
  match node with
  | PNode.aexpr oprName _ _ => comparison_opr_name_matches oprName
  | _ => false

/-- build_comparison_expression.  Case 1: the left node is itself a
comparison A_Expr — chain via AND using its rexpr.  Case 2: the left node
is an AND BoolExpr whose last argument is a comparison A_Expr — chain onto
the flat list.  Case 3: plain comparison. -/
def build_comparison_expression (left right : PNode) (oprName : String) : PNode :=
  match left with
  | PNode.aexpr lop llexpr lrexpr =>
      if comparison_opr_name_matches lop then
        make_and_expr (PNode.aexpr lop llexpr lrexpr)
          (PNode.aexpr oprName lrexpr right)
      else
        PNode.aexpr oprName left right
  | PNode.bexpr BoolExprOp.AND_EXPR args =>
      match args.getLast? with
      | some (PNode.aexpr lop llexpr lrexpr) =>
          if comparison_opr_name_matches lop then
            make_and_expr (PNode.bexpr BoolExprOp.AND_EXPR args)
              (PNode.aexpr oprName lrexpr right)
          else
            PNode.aexpr oprName left right
      | _ => PNode.aexpr oprName left right
  | _ => PNode.aexpr oprName left right

/-- A node violates flatness when it is an OR (resp. AND) BoolExpr having
a direct child that is an OR (resp. AND) BoolExpr. -/
def has_same_connective_child (node : PNode) : Bool :=
  match node with
  | PNode.bexpr op args =>
      (op == BoolExprOp.OR_EXPR || op == BoolExprOp.AND_EXPR) &&
      args.any (fun a =>
        match a with
        | PNode.bexpr op2 _ => op2 == op
        | _ => false)
  | _ => false

/-- Whether a parse node is a BoolExpr with the given connective at its root. -/
def is_bexpr_rooted (op : BoolExprOp) (node : PNode) : Bool :=
  match node with
  | PNode.bexpr op2 _ => op2 == op
  | _ => false

/- ===================================================================
   Part 2: _ag_enforce_edge_uniqueness (age_vle.c)
   =================================================================== -/

/-- One variadic argument of _ag_enforce_edge_uniqueness: a SQL NULL, a
plain graphid, or a VariableEdge whose serialized children are an
alternating edge / vertex item sequence (we record each item's id, which
is what the unchecked edge cast reads at children[0]). -/
inductive UniqArg where
  | nullArg
  | gid (id : Int)
  | vedge (childIds : List Int)
deriving DecidableEq, Repr

/-- The ids sitting at even positions of a VariableEdge's child sequence —
exactly the items the source treats as edges (odd positions are skipped
with continue). -/
def even_position_ids (childIds : List Int) : List Int :=
  match childIds with
  | [] => []
  | [x] => [x]
  | x :: _ :: rest => x :: even_position_ids rest

/-- Insert the ids one by one into the exists hash; none signals that a
duplicate was found (the function returns false at that point). -/
def insert_ids (seen : List Int) (ids : List Int) : Option (List Int) :=
  match ids with
  | [] => some seen
  | i :: rest => if i ∈ seen then none else insert_ids (i :: seen) rest

/-- The sequential argument loop of _ag_enforce_edge_uniqueness.  Result
none models ereport(ERROR) on a NULL argument; some b models
PG_RETURN_BOOL(b).  A duplicate is reported (false) as soon as it is hit,
before any later NULL argument can be examined. -/
def enforce_uniqueness_loop (seen : List Int) (args : List UniqArg) : Option Bool :=
  match args with
  | [] => some true
  | UniqArg.nullArg :: _ => none
  | UniqArg.gid id :: rest =>
      if id ∈ seen then some false
      else enforce_uniqueness_loop (id :: seen) rest
  | UniqArg.vedge childIds :: rest =>
      match insert_ids seen (even_position_ids childIds) with
      | none => some false
      | some seen2 => enforce_uniqueness_loop seen2 rest

/-- _ag_enforce_edge_uniqueness: fresh exists hash, then the argument loop. -/
def _ag_enforce_edge_uniqueness (args : List UniqArg) : Option Bool :=
  enforce_uniqueness_loop [] args

/-- The edge ids one argument contributes to the uniqueness check. -/
def uniq_arg_ids (a : UniqArg) : List Int :=
  match a with
  | UniqArg.nullArg => []
  | UniqArg.gid id => [id]
  | UniqArg.vedge childIds => even_position_ids childIds

/-- All ids collected from an argument list, in examination order. -/
def collected_ids (args : List UniqArg) : List Int :=
  (args.map uniq_arg_ids).flatten

/-- The arguments examined strictly before the first NULL argument, when
a NULL argument is present. -/
def args_before_first_null (args : List UniqArg) : Option (List UniqArg) :=
  match args with
  | [] => Option.none
  | UniqArg.nullArg :: _ => some []
  | a :: rest =>
      match args_before_first_null rest with
      | some pre => some (a :: pre)
      | Option.none => Option.none

/- ===================================================================
   Part 3: VariableEdge endpoint predicates (variable_edge.c)
   =================================================================== -/

/-- The serialized fields of a vertex as the predicates see them: the
children array holds uint32 entries (vertex.h: typedef uint32 ventry),
so the 64-bit graphid occupies children[0] and children[1].  The model
records the full 64-bit id; reads of a single entry extract one of its
words. -/
structure RawVertex where
  id : Int
deriving DecidableEq, Repr

/-- The serialized fields of an edge: children holds uint32 entries, the
64-bit graphid spans children[0..1], the start id children[2..3], the
end id children[4..5] (full ids are read from these offsets elsewhere by
pointer casts such as the one in age_vle.c reading children[0] as an
int64).  The model records the full 64-bit fields. -/
structure RawEdge where
  id : Int
  startId : Int
  endId : Int
deriving DecidableEq, Repr

/-- The value of a single-entry cast such as (int64)e->children[2]: one
uint32 entry of a serialized 64-bit id, zero-extended to int64 — the
id's low 32-bit word, since the first stored entry is the one the
full-width pointer casts read the id from on the layout in use. -/
def low_word (x : Int) : Int :=
  x % 4294967296

/-- One child item of a serialized VariableEdge. -/
inductive VEItem where
  | edgeItem (e : RawEdge)
  | vertexItem (v : RawVertex)
deriving DecidableEq, Repr

/-- A VariableEdge: children[0] stores the item count, followed by the
items (edge, vertex, edge, ..., edge for a well-formed traversal). -/
structure VariableEdgeVal where
  items : List VEItem
deriving DecidableEq, Repr

/-- The first child, read through the unchecked edge cast
(edge *e = &ve->children[1]); none models the undefined read when the
first item is not an edge or the buffer is empty. -/
def first_item_as_edge (ve : VariableEdgeVal) : Option RawEdge :=
  match ve.items.head? with
  | some (VEItem.edgeItem e) => some e
  | _ => Option.none

/-- The child reached after advancing children[0] - 1 VARSIZE steps,
i.e. the last item, read through the unchecked edge cast. -/
def last_item_as_edge (ve : VariableEdgeVal) : Option RawEdge :=
  match ve.items.getLast? with
  | some (VEItem.edgeItem e) => some e
  | _ => Option.none

/-- gid_is_first_startid: compares (int64)e->children[2] — the
zero-extended first 32-bit entry of the first edge's start id — with the
full graphid argument. -/
def gid_is_first_startid (id : Int) (ve : VariableEdgeVal) : Option Bool :=
  match first_item_as_edge ve with
  | some e => some (low_word e.startId == id)
  | Option.none => Option.none

/-- vertex_is_first_start_vertex: the source executes PG_RETURN_BOOL(true)
before the comparison against the first edge, so it returns true for every
input. -/
def vertex_is_first_start_vertex (v : RawVertex) (ve : VariableEdgeVal) : Option Bool :=
  some true

/-- gid_is_first_endid: the source executes PG_RETURN_BOOL(true) before
the comparison against the first edge, so it returns true for every input. -/
def gid_is_first_endid (id : Int) (ve : VariableEdgeVal) : Option Bool :=
  some true

/-- vertex_is_first_end_vertex: the source executes PG_RETURN_BOOL(true)
before the comparison against the first edge, so it returns true for every
input. -/
def vertex_is_first_end_vertex (v : RawVertex) (ve : VariableEdgeVal) : Option Bool :=
  some true

/-- gid_is_last_startid: compares (int64)e->children[2] of the last edge
— the zero-extended first 32-bit entry of its start id — with the full
graphid argument. -/
def gid_is_last_startid (id : Int) (ve : VariableEdgeVal) : Option Bool :=
  match last_item_as_edge ve with
  | some e => some (low_word e.startId == id)
  | Option.none => Option.none

/-- vertex_is_last_start_vertex: compares (int64)e->children[2] of the
last edge with (int64)v->children[0] — the first 32-bit entry of the
start id against the first 32-bit entry of the vertex's id. -/
def vertex_is_last_start_vertex (v : RawVertex) (ve : VariableEdgeVal) : Option Bool :=
  match last_item_as_edge ve with
  | some e => some (low_word e.startId == low_word v.id)
  | Option.none => Option.none

/-- gid_is_last_endid: compares (int64)e->children[4] of the last edge —
the zero-extended first 32-bit entry of its end id — with the full
graphid argument. -/
def gid_is_last_endid (id : Int) (ve : VariableEdgeVal) : Option Bool :=
  match last_item_as_edge ve with
  | some e => some (low_word e.endId == id)
  | Option.none => Option.none

/-- vertex_is_last_end_vertex: compares (int64)e->children[4] of the
last edge with (int64)v->children[0] — the first 32-bit entry of the end
id against the first 32-bit entry of the vertex's id. -/
def vertex_is_last_end_vertex (v : RawVertex) (ve : VariableEdgeVal) : Option Bool :=
  match last_item_as_edge ve with
  | some e => some (low_word e.endId == low_word v.id)
  | Option.none => Option.none

/- ===================================================================
   Part 4: variable-length range defaults (grammar + build_vle_context)
   =================================================================== -/

/-- Surface syntax of the optional range after the asterisk of a
variable-length relationship. -/
inductive CypherRangeSyntax where
  | single (n : Int)
  | dotdot (lo hi : Option Int)
  | emptyRange
deriving DecidableEq, Repr

/-- cypher_range_opt: builds the A_Indices pair (lidx, uidx).  A single
index n duplicates into both bounds; an omitted side of the dotdot form
stays NULL; the empty production leaves both NULL. -/
def cypher_range_opt (r : CypherRangeSyntax) : Option Int × Option Int :=
  match r with
  | CypherRangeSyntax.single n => (some n, some n)
  | CypherRangeSyntax.dotdot lo hi => (lo, hi)
  | CypherRangeSyntax.emptyRange => (Option.none, Option.none)

/-- cypher_varlen_opt on an asterisk followed by a range: a NULL lidx is
replaced by the integer constant 1, and when uidx is present the range is
rejected if lidx exceeds it. -/
def cypher_varlen_opt (r : CypherRangeSyntax) : Except String (Option Int × Option Int) :=
  let n := cypher_range_opt r
  let l : Int :=
    match n.1 with
    | Option.none => 1
    | some v => v
  match n.2 with
  | some u =>
      if l > u then Except.error "invalid range"
      else Except.ok (some l, some u)
  | Option.none => Except.ok (some l, Option.none)

/-- The lidx/uidx arguments build_VLE_relation passes to the vle function
call: a NULL constant when the A_Indices is absent or the bound is NULL,
the bound's constant otherwise. -/
def build_VLE_relation_bound_args (ai : Option (Option Int × Option Int)) :
    Option Int × Option Int :=
  match ai with
  | Option.none => (Option.none, Option.none)
  | some (l, u) => (l, u)

/-- The bound fields of the path_finding_context. -/
structure VleBounds where
  lidx : Int
  uidx : Int
  uidxInfinite : Bool
deriving DecidableEq, Repr

/-- The bound initialization of build_vle_context: a NULL third argument
sets lidx to 1; a NULL fourth argument marks the upper bound infinite and
stores -1 in uidx. -/
def build_vle_context_bounds (lidxArg uidxArg : Option Int) : VleBounds :=
  { lidx :=
      match lidxArg with
      | Option.none => 1
      | some v => v
    uidx :=
      match uidxArg with
      | Option.none => -1
      | some v => v
    uidxInfinite :=
      match uidxArg with
      | Option.none => true
      | some _ => false }

/-- Composition: range syntax through cypher_varlen_opt and
build_VLE_relation down to the bounds build_vle_context stores. -/
def varlen_engine_bounds (r : CypherRangeSyntax) : Except String VleBounds :=
  match cypher_varlen_opt r with
  | Except.error e => Except.error e
  | Except.ok ai =>
      let args := build_VLE_relation_bound_args (some ai)
      Except.ok (build_vle_context_bounds args.1 args.2)

/- ===================================================================
   Part 5: transform_cypher_limit (SKIP and LIMIT)
   =================================================================== -/

/-- Transformed expression trees as far as transform_cypher_limit looks
at them: constants, parameters, variable references carrying their
varlevelsup, operator applications, and the int8 coercion node that
coerce_to_specific_type wraps around the expression. -/
inductive TExpr where
  | constInt (n : Int)
  | param (i : Nat)
  | varRef (attno : Nat) (varlevelsup : Nat)
  | binop (oprName : String) (l r : TExpr)
  | coerceInt8 (e : TExpr)

/-- contain_vars_of_level: does the expression contain a Var whose
varlevelsup equals the requested level. -/
def contain_vars_of_level (e : TExpr) (levelsup : Nat) : Bool :=
  match e with
  | TExpr.constInt _ => false
  | TExpr.param _ => false
  | TExpr.varRef _ l => l == levelsup
  | TExpr.binop _ a b =>
      contain_vars_of_level a levelsup || contain_vars_of_level b levelsup
  | TExpr.coerceInt8 a => contain_vars_of_level a levelsup

/-- coerce_to_specific_type with target INT8OID. -/
def coerce_to_specific_type_int8 (e : TExpr) : TExpr :=
  TExpr.coerceInt8 e

/-- transform_cypher_limit: NULL passes through; otherwise the transformed
expression is coerced to int8 and rejected if it contains any variable of
the current query level (level 0). -/
def transform_cypher_limit (node : Option TExpr) : Except String (Option TExpr) :=
  match node with
  | Option.none => Except.ok Option.none
  | some e =>
      let qual := coerce_to_specific_type_int8 e
      if contain_vars_of_level qual 0 then
        Except.error "argument of LIMIT must not contain variables"
      else
        Except.ok (some qual)

/- ===================================================================
   Part 6: CREATE clause edge/node transformation
   =================================================================== -/

/-- Relationship directions. -/
inductive CypherRelDir where
  | CYPHER_REL_DIR_LEFT
  | CYPHER_REL_DIR_RIGHT
  | CYPHER_REL_DIR_NONE
deriving DecidableEq, Repr

/-- Kinds stored in the label cache. -/
inductive LabelKind where
  | LABEL_KIND_VERTEX
  | LABEL_KIND_EDGE
deriving DecidableEq, Repr

/-- Kinds of transform entities. -/
inductive EntKind where
  | ENT_VERTEX
  | ENT_EDGE
  | ENT_VLE_EDGE
deriving DecidableEq, Repr

/-- A relationship pattern inside a CREATE clause. -/
structure CreateEdgePattern where
  name : Option String
  label : Option String
  dir : CypherRelDir

/-- A node pattern inside a CREATE clause. -/
structure CreateNodePattern where
  name : Option String
  label : Option String
  hasProps : Bool

/-- The pieces of the cypher parse state the CREATE transforms consult:
the label cache and the declared variables. -/
structure CreateParseState where
  labelKind : String → Option LabelKind
  variableExists : String → Bool
  entityKind : String → Option EntKind

/-- transform_create_cypher_edge, reduced to its error behaviour: the
guards appear in source order — label of the wrong kind, variable name
already in use, non-directed relationship, missing label. -/
def transform_create_cypher_edge (cps : CreateParseState)
    (edge : CreateEdgePattern) : Except String Unit :=
  if (match edge.label with
      | some lbl => cps.labelKind lbl == some LabelKind.LABEL_KIND_VERTEX
      | Option.none => false) then
    Except.error "label is for vertices, not edges"
  else if (match edge.name with
           | some nm => cps.variableExists nm
           | Option.none => false) then
    Except.error "variable already exists"
  else if edge.dir == CypherRelDir.CYPHER_REL_DIR_NONE then
    Except.error "only directed relationships are allowed in CREATE"
  else if edge.label.isNone then
    Except.error "relationships must be specify a label in CREATE."
  else
    Except.ok ()

/-- transform_create_cypher_node, reduced to its error behaviour: label
of the wrong kind; an existing non-vertex variable; an existing vertex
variable with properties or a label. -/
def transform_create_cypher_node (cps : CreateParseState)
    (node : CreateNodePattern) : Except String Unit :=
  if (match node.label with
      | some lbl => cps.labelKind lbl == some LabelKind.LABEL_KIND_EDGE
      | Option.none => false) then
    Except.error "label is for edges, not vertices"
  else
    match node.name with
    | some nm =>
        match cps.entityKind nm with
        | some EntKind.ENT_VERTEX =>
            if node.hasProps then
              Except.error "previously declared nodes in a create clause cannot have properties"
            else if node.label.isSome then
              Except.error "previously declared variables cannot have a label"
            else Except.ok ()
        | some _ => Except.error "variable already exists"
        | Option.none => Except.ok ()
    | Option.none => Except.ok ()

/-- One item of a CREATE path pattern. -/
inductive CreatePatternItem where
  | nodeItem (n : CreateNodePattern)
  | relItem (r : CreateEdgePattern)

/-- The per-item loop of transform_cypher_create_path: every error of a
node or relationship transform aborts the whole clause. -/
def transform_cypher_create_path (cps : CreateParseState)
    (items : List CreatePatternItem) : Except String Unit :=
  match items with
  | [] => Except.ok ()
  | CreatePatternItem.nodeItem n :: rest =>
      match transform_create_cypher_node cps n with
      | Except.error e => Except.error e
      | Except.ok _ => transform_cypher_create_path cps rest
  | CreatePatternItem.relItem r :: rest =>
      match transform_create_cypher_edge cps r with
      | Except.error e => Except.error e
      | Except.ok _ => transform_cypher_create_path cps rest

/-- The pattern CREATE ()-[:X]-() RETURN 1 builds: two anonymous
unlabelled nodes around an anonymous undirected relationship with
label X. -/
def create_undirected_example_path : List CreatePatternItem :=
  [CreatePatternItem.nodeItem
     { name := Option.none, label := Option.none, hasProps := false },
   CreatePatternItem.relItem
     { name := Option.none, label := some "X",
       dir := CypherRelDir.CYPHER_REL_DIR_NONE },
   CreatePatternItem.nodeItem
     { name := Option.none, label := Option.none, hasProps := false }]

/-- A parse state for an empty graph: no cached labels, no declared
variables. -/
def empty_create_parse_state : CreateParseState :=
  { labelKind := fun _ => Option.none
    variableExists := fun _ => false
    entityKind := fun _ => Option.none }

/- ===================================================================
   Part 7: MATCH pattern edge-uniqueness predicate emission
   =================================================================== -/

/-- A relationship pattern of a MATCH path: its (possibly generated)
variable name and whether it carries a variable-length quantifier (after
the grammar rewrote it through build_VLE_relation). -/
structure MatchRel where
  relName : String
  isVLE : Bool
deriving DecidableEq, Repr

/-- A MATCH path: the first node name followed by (relationship, node)
pairs — the alternating node/relationship shape the parser guarantees
(length 2k+1 with nodes at even positions). -/
structure MatchPath where
  headName : String
  tail : List (MatchRel × String)
deriving DecidableEq, Repr

/-- Transform entities recorded for one path, in the order
transform_match_entities appends them (vertex, then per pair the edge or
VLE-edge entity followed by the next vertex entity). -/
inductive MatchEntity where
  | entVertex (name : String)
  | entEdge (name : String)
  | entVleEdge (name : String)
deriving DecidableEq, Repr

/-- transform_match_entities for one path. -/
def transform_match_entities (p : MatchPath) : List MatchEntity :=
  MatchEntity.entVertex p.headName ::
    (p.tail.map (fun rn =>
      [(if rn.1.isVLE then MatchEntity.entVleEdge rn.1.relName
        else MatchEntity.entEdge rn.1.relName),
       MatchEntity.entVertex rn.2])).flatten

/-- Argument of the emitted _ag_enforce_edge_uniqueness call: the id
column of a fixed edge, or the edges output column of a VLE function. -/
inductive EdgeRef where
  | idCol (name : String)
  | edgesCol (name : String)
deriving DecidableEq, Repr

/-- prevent_duplicate_edges: collect, over the path's entities, the id
qual of every ENT_EDGE entity and the edges column of every ENT_VLE_EDGE
entity, as the argument list of one _ag_enforce_edge_uniqueness call. -/
def prevent_duplicate_edges (entities : List MatchEntity) : List EdgeRef :=
  entities.filterMap (fun e =>
    match e with
    | MatchEntity.entEdge n => some (EdgeRef.idCol n)
    | MatchEntity.entVleEdge n => some (EdgeRef.edgesCol n)
    | MatchEntity.entVertex _ => Option.none)

/-- The uniqueness predicates transform_match_path appends to the qual
list of one path: one _ag_enforce_edge_uniqueness call over the path's
entities when the path has more than 3 entities, none otherwise. -/
def transform_match_path_uniqueness (p : MatchPath) : List (List EdgeRef) :=
  let entities := transform_match_entities p
  if 3 < entities.length then [prevent_duplicate_edges entities] else []

/-- The uniqueness predicates of a whole MATCH pattern: the concatenation
of the per-path lists produced by the loop of transform_match_pattern. -/
def transform_match_pattern_uniqueness (pattern : List MatchPath) : List (List EdgeRef) :=
  (pattern.map transform_match_path_uniqueness).flatten

/-- Total number of relationships (fixed and VLE) in a pattern. -/
def match_pattern_edge_count (pattern : List MatchPath) : Nat :=
  (pattern.map (fun p => p.tail.length)).sum

/-- All edge references of a whole pattern — what the claimed clause-wide
uniqueness predicate would have to cover. -/
def match_pattern_all_edge_refs (pattern : List MatchPath) : List EdgeRef :=
  (pattern.map (fun p => prevent_duplicate_edges (transform_match_entities p))).flatten

/-- A two-path MATCH pattern, each path a single directed edge:
MATCH (a)-[e1]->(b), (c)-[e2]->(d). -/
def two_single_edge_paths : List MatchPath :=
  [{ headName := "a", tail := [({ relName := "e1", isVLE := false }, "b")] },
   { headName := "c", tail := [({ relName := "e2", isVLE := false }, "d")] }]

/- ===================================================================
   Part 8: WITH ... WHERE (transform_cypher_with)
   =================================================================== -/

/-- Values of the row model used to give the emitted queries a
semantics. -/
inductive GValue where
  | gbool (b : Bool)
  | gint (n : Int)
  | gnull
deriving DecidableEq, Repr

/-- A row: named columns with values. -/
def GRow := List (String × GValue)

/-- Expressions appearing in target lists and WHERE clauses of the row
model. -/
inductive WExpr where
  | constE (v : GValue)
  | varE (name : String)
deriving DecidableEq, Repr

/-- Expression evaluation over a row; an unknown column yields null. -/
def evalWExpr (r : GRow) (e : WExpr) : GValue :=
  match e with
  | WExpr.constE v => v
  | WExpr.varE n =>
      match r.find? (fun c => c.1 == n) with
      | some c => c.2
      | Option.none => GValue.gnull

/-- The emitted query trees relevant to the WITH clause: a projection
with an optional jointree qual, or a pass-through wrapper subquery with
an optional jointree qual. -/
inductive EmittedQuery where
  | proj (items : List (String × WExpr)) (qual : Option WExpr)
  | wrap (sub : EmittedQuery) (qual : Option WExpr)

/-- The jointree qual of the outermost emitted query. -/
def emitted_qual (q : EmittedQuery) : Option WExpr :=
  match q with
  | EmittedQuery.proj _ qual => qual
  | EmittedQuery.wrap _ qual => qual

/-- Row semantics of an emitted query: project (or pass through), then
keep the rows on which the qual evaluates to true; a NULL qual keeps
every row. -/
def run_emitted (rows : List GRow) (q : EmittedQuery) : List GRow :=
  match q with
  | EmittedQuery.proj items qual =>
      let projected := rows.map (fun r => items.map (fun it => (it.1, evalWExpr r it.2)))
      match qual with
      | Option.none => projected
      | some e => projected.filter (fun r => evalWExpr r e == GValue.gbool true)
  | EmittedQuery.wrap sub qual =>
      let subRows := run_emitted rows sub
      match qual with
      | Option.none => subRows
      | some e => subRows.filter (fun r => evalWExpr r e == GValue.gbool true)

/-- A WITH clause: its projection items and its WHERE expression. -/
structure CypherWithClause where
  items : List (String × WExpr)
  whereExpr : Option WExpr

/-- transform_cypher_return: a projection whose jointree is built with a
NULL qual (makeFromExpr(p_joinlist, NULL)). -/
def transform_cypher_return_items (items : List (String × WExpr)) : EmittedQuery :=
  EmittedQuery.proj items Option.none

/-- transform_cypher_clause_with_where: when the where field read from
the clause is set, the clause is transformed as a subquery and wrapped in
a pass-through query whose jointree qual is NULL — the where expression
is never transformed or attached; when the field is not set the clause is
transformed directly. -/
def transform_cypher_clause_with_where (transform : Unit → EmittedQuery)
    (whereField : Option WExpr) : EmittedQuery :=
  match whereField with
  | some _ => EmittedQuery.wrap (transform ()) Option.none
  | Option.none => transform ()

/-- transform_cypher_with: rebuilds the clause as a RETURN (distinct,
items, order by, skip, limit — the where expression of the WITH node is
not copied) and hands it to transform_cypher_clause_with_where.  The
where field that function reads from the rebuilt clause comes from a
cypher_match cast of the cypher_return node, so the model takes the value
actually read (whereRead) as a parameter; the emitted query is the same
for every possible value. -/
def transform_cypher_with (w : CypherWithClause) (whereRead : Option WExpr) :
    EmittedQuery :=
  transform_cypher_clause_with_where
    (fun _ => transform_cypher_return_items w.items) whereRead

/-- The behaviour the specification claims for WITH ... WHERE: the RETURN
projection followed by a filter on the WHERE predicate. -/
def with_where_claimed_semantics (w : CypherWithClause) (rows : List GRow) : List GRow :=
  let projected := run_emitted rows (transform_cypher_return_items w.items)
  match w.whereExpr with
  | Option.none => projected
  | some e => projected.filter (fun r => evalWExpr r e == GValue.gbool true)

/-- A concrete WITH clause carrying a WHERE that rejects every row:
WITH 1 AS x WHERE false. -/
def with_false_where_clause : CypherWithClause :=
  { items := [("x", WExpr.constE (GValue.gint 1))]
    whereExpr := some (WExpr.constE (GValue.gbool false)) }

/- ===================================================================
   Part 9: the VLE traversal engine (age_vle.c)
   =================================================================== -/

/-- Graph ids (int64 graphid). -/
abbrev GraphId := Int

/-- The fields of an edge_entry the traversal reads. -/
structure EdgeEntry where
  startId : GraphId
  endId : GraphId
deriving DecidableEq, Repr

/-- The in-memory graph context: get_edge_entry, the three per-vertex
adjacency lists (out, in, self), and vertex existence (get_vertex_entry). -/
structure VleGraph where
  edgeEntry : GraphId → Option EdgeEntry
  edgesOut : GraphId → List GraphId
  edgesIn : GraphId → List GraphId
  edgesSelf : GraphId → List GraphId
  isVertex : GraphId → Bool

/-- Well-formedness of the graph context as the traversal relies on it:
an edge on the out list of v starts at v, an edge on the in list of v
ends at v, and an edge on the self list of v both starts and ends at v. -/
structure VleGraphWF (g : VleGraph) : Prop where
  outOk : ∀ v e, e ∈ g.edgesOut v →
    ∃ ee, g.edgeEntry e = some ee ∧ ee.startId = v
  inOk : ∀ v e, e ∈ g.edgesIn v →
    ∃ ee, g.edgeEntry e = some ee ∧ ee.endId = v
  selfOk : ∀ v e, e ∈ g.edgesSelf v →
    ∃ ee, g.edgeEntry e = some ee ∧ ee.startId = v ∧ ee.endId = v

/-- The fields of the path_finding_context the traversal reads.  The
label / property constraint test check_edge_constraints is abstracted as
the predicate edgeOk, a pure function of the edge and its entry (in the
source it depends only on the context's constraint fields and the edge
entry), so the theorems hold for every concrete constraint. -/
structure PathFindingContext where
  vsid : GraphId
  veid : GraphId
  lidx : Int
  uidx : Int
  uidxInfinite : Bool
  edgeDirection : CypherRelDir
  edgeOk : GraphId → EdgeEntry → Bool

/-- The mutable traversal state: the dfs edge queue, the dfs path queue
and the visited flags of the edge state hashtable.  The source maintains
the separate dfs vertex queue only for CYPHER_REL_DIR_NONE, and its
pushes and pops are always paired with pushes and pops of the edge
queue, so the model stores each edge together with the source vertex
that pushed it; for the two directed modes this extra component is
never consulted. -/
structure DfsState where
  edgeQueue : List (GraphId × GraphId)
  pathQueue : List GraphId
  visited : List GraphId

/-- The edges add_edges iterates for a vertex, in push order: the out
list unless the direction is LEFT, then the in list unless the direction
is RIGHT, then the self list. -/
def dir_edge_lists (g : VleGraph) (dir : CypherRelDir) (v : GraphId) : List GraphId :=
  (if dir != CypherRelDir.CYPHER_REL_DIR_LEFT then g.edgesOut v else []) ++
  (if dir != CypherRelDir.CYPHER_REL_DIR_RIGHT then g.edgesIn v else []) ++
  g.edgesSelf v

/-- The per-edge test of add_edges: not already visited, and passing
check_edge_constraints (an edge whose entry is missing would trip the
Assert in the source; the model skips it). -/
def edge_passes (ctx : PathFindingContext) (g : VleGraph)
    (visited : List GraphId) (e : GraphId) : Bool :=
  decide (e ∉ visited) &&
  (match g.edgeEntry e with
   | some ee => ctx.edgeOk e ee
   | Option.none => false)

/-- add_edges: push every passing edge of the vertex onto the edge queue
(a stack: the last edge pushed ends up on top), remembering the source
vertex. -/
def add_edges (ctx : PathFindingContext) (g : VleGraph)
    (st : DfsState) (v : GraphId) : DfsState :=
  { st with
    edgeQueue :=
      ((dir_edge_lists g ctx.edgeDirection v).filter
        (edge_passes ctx g st.visited)).reverse.map (fun e => (v, e)) ++
      st.edgeQueue }

/-- get_next_vertex: for RIGHT the end id, for LEFT the start id, for
NONE the endpoint that is not the parent vertex on top of the vertex
queue (none models the elog(ERROR) when neither endpoint matches). -/
def get_next_vertex (dir : CypherRelDir) (parent : GraphId)
    (ee : EdgeEntry) : Option GraphId :=
  match dir with
  | CypherRelDir.CYPHER_REL_DIR_RIGHT => some ee.endId
  | CypherRelDir.CYPHER_REL_DIR_LEFT => some ee.startId
  | CypherRelDir.CYPHER_REL_DIR_NONE =>
      if ee.startId == parent then some ee.endId
      else if ee.endId == parent then some ee.startId
      else Option.none

/-- Result of one call of dfs_find_a_path_between: a path was found (the
state keeps the position), the edge queue ran dry, the loop fuel ran out,
or an Assert / elog situation was reached (never under the invariant). -/
inductive DfsOutcome where
  | found (st : DfsState)
  | exhausted (st : DfsState)
  | fuelOut (st : DfsState)
  | stuck (st : DfsState)

/-- dfs_find_a_path_between: the while loop of the source, one fuel unit
per iteration.  Peek the top edge; if its visited flag is set, pop it
(also popping the path queue and resetting the flag when it is the last
path edge); otherwise set the flag, push it on the path, compute the next
vertex, test the yield condition, back up when past a finite upper bound,
expand the next vertex when still below the upper bound, and return when
a path was found. -/
def dfs_find_a_path_between (ctx : PathFindingContext) (g : VleGraph) :
    Nat → DfsState → DfsOutcome
  | 0, st => DfsOutcome.fuelOut st
  | Nat.succ fuel, st =>
    match st.edgeQueue with
    | [] => DfsOutcome.exhausted st
    | (src, e) :: rest =>
      if e ∈ st.visited then
        let backtracking := st.pathQueue.head? == some e
        dfs_find_a_path_between ctx g fuel
          { edgeQueue := rest
            pathQueue := if backtracking then st.pathQueue.tail else st.pathQueue
            visited := if backtracking then st.visited.erase e else st.visited }
      else
        match g.edgeEntry e with
        | Option.none => DfsOutcome.stuck st
        | some ee =>
          match get_next_vertex ctx.edgeDirection src ee with
          | Option.none => DfsOutcome.stuck st
          | some v =>
            let path2 := e :: st.pathQueue
            let size : Int := path2.length
            let st2 : DfsState :=
              { edgeQueue := st.edgeQueue
                pathQueue := path2
                visited := e :: st.visited }
            let isFound := v == ctx.veid && decide (ctx.lidx ≤ size) &&
              (ctx.uidxInfinite || decide (size ≤ ctx.uidx))
            if v == ctx.veid && !ctx.uidxInfinite && decide (ctx.uidx < size) then
              dfs_find_a_path_between ctx g fuel st2
            else
              let st3 :=
                if ctx.uidxInfinite || decide (size < ctx.uidx) then
                  add_edges ctx g st2 v
                else st2
              if isFound then DfsOutcome.found st3
              else dfs_find_a_path_between ctx g fuel st3

/-- do_vsid_and_veid_exist. -/
def do_vsid_and_veid_exist (ctx : PathFindingContext) (g : VleGraph) : Bool :=
  g.isVertex ctx.vsid && g.isVertex ctx.veid

/-- load_initial_dfs_queues: when both endpoints exist, seed the edge
queue with the start vertex's edges. -/
def load_initial_dfs_queues (ctx : PathFindingContext) (g : VleGraph) : DfsState :=
  let st0 : DfsState := { edgeQueue := [], pathQueue := [], visited := [] }
  if do_vsid_and_veid_exist ctx g then add_edges ctx g st0 ctx.vsid else st0

/-- The interior-vertex reconstruction step of build_path_container:
vid := (vid == start) ? end : start (an edge with no entry would trip
the source's unchecked lookup; the model keeps vid). -/
def next_path_vertex (g : VleGraph) (vid e : GraphId) : GraphId :=
  match g.edgeEntry e with
  | some ee => if vid == ee.startId then ee.endId else ee.startId
  | Option.none => vid

/-- The edge / interior-vertex interleaving of the container array after
the start vertex: e1, v1, e2, v2, ..., ek, vk over the chronological edge
list. -/
def interleave_path (g : VleGraph) (vid : GraphId) (cs : List GraphId) : List GraphId :=
  match cs with
  | [] => []
  | e :: rest =>
      let vid2 := next_path_vertex g vid e
      e :: vid2 :: interleave_path g vid2 rest

/-- build_path_container: the graphid array of the yielded path — the
start vertex, then the path queue's edges in chronological order (the
queue is filled back to front in the source) interleaved with the
reconstructed interior vertices. -/
def build_path_container (g : VleGraph) (vsid : GraphId)
    (pathQueue : List GraphId) : List GraphId :=
  vsid :: interleave_path g vsid pathQueue.reverse

/-- The SRF driver gtype_vle: repeatedly call dfs_find_a_path_between on
the persistent state, yielding one container per found path until the
search is exhausted. -/
def gtype_vle_yields (ctx : PathFindingContext) (g : VleGraph) :
    Nat → DfsState → List (List GraphId)
  | 0, _ => []
  | Nat.succ fuel, st =>
    match dfs_find_a_path_between ctx g (Nat.succ fuel) st with
    | DfsOutcome.found st2 =>
        build_path_container g ctx.vsid st2.pathQueue ::
          gtype_vle_yields ctx g fuel st2
    | _ => []

/-- All paths yielded by one VLE call site within the given fuel, from
the freshly initialized state. -/
def gtype_vle_all_yields (ctx : PathFindingContext) (g : VleGraph)
    (fuel : Nat) : List (List GraphId) :=
  gtype_vle_yields ctx g fuel (load_initial_dfs_queues ctx g)

/-- The elements at odd positions of a container array — its edges. -/
def odd_position_elems (l : List GraphId) : List GraphId :=
  match l with
  | [] => []
  | [_] => []
  | _ :: y :: rest => y :: odd_position_elems rest

/-- The walk endpoint reached from v0 along the chronological edge list,
by the container's reconstruction rule. -/
def walk_end (g : VleGraph) (v0 : GraphId) (cs : List GraphId) : GraphId :=
  cs.foldl (next_path_vertex g) v0

/-- An edge queue entry is sound for source vertex src: the edge has an
entry and src sits at the endpoint from which the direction traverses
it (start for RIGHT, end for LEFT, either for NONE). -/
def entry_ok (g : VleGraph) (dir : CypherRelDir) (src e : GraphId) : Prop :=
  ∃ ee, g.edgeEntry e = some ee ∧
    (match dir with
     | CypherRelDir.CYPHER_REL_DIR_RIGHT => ee.startId = src
     | CypherRelDir.CYPHER_REL_DIR_LEFT => ee.endId = src
     | CypherRelDir.CYPHER_REL_DIR_NONE => ee.startId = src ∨ ee.endId = src)

/-- Stack discipline invariant.  StackInv g dir vsid w stack path: the
edge queue decomposes into the unexplored sibling block of the current
walk endpoint w, then one entry per path edge (each still on the queue
under its own sibling block).  Sibling blocks carry their source vertex,
soundness, and freshness with respect to the path prefix below them;
each path entry records the vertex it was traversed from, and the walk
endpoint advances by the container reconstruction rule. -/
inductive StackInv (g : VleGraph) (dir : CypherRelDir) (vsid : GraphId) :
    GraphId → List (GraphId × GraphId) → List GraphId → Prop where
  | base (B : List (GraphId × GraphId))
      (hB : ∀ q ∈ B, q.1 = vsid ∧ entry_ok g dir vsid q.2) :
      StackInv g dir vsid vsid B []
  | step (w srcp : GraphId) (B S : List (GraphId × GraphId))
      (p : GraphId) (path : List GraphId)
      (hB : ∀ q ∈ B, q.1 = w ∧ entry_ok g dir w q.2 ∧ q.2 ∉ (p :: path))
      (hS : StackInv g dir vsid srcp S path)
      (hp : entry_ok g dir srcp p)
      (hw : next_path_vertex g srcp p = w) :
      StackInv g dir vsid w (B ++ (srcp, p) :: S) (p :: path)

/-- The full state invariant of the traversal: the visited flags are
exactly the path edges, both are duplicate free, and the edge queue is
governed by the stack discipline invariant. -/
structure DfsInv (ctx : PathFindingContext) (g : VleGraph) (st : DfsState) : Prop where
  visIff : ∀ e, e ∈ st.visited ↔ e ∈ st.pathQueue
  pathNodup : st.pathQueue.Nodup
  visNodup : st.visited.Nodup
  stackInv : ∃ w, StackInv g ctx.edgeDirection ctx.vsid w st.edgeQueue st.pathQueue

/-- A one-edge witness graph: a single edge 100 from vertex 1 to
vertex 2. -/
def witness_graph : VleGraph :=
  { edgeEntry := fun e =>
      if e = 100 then some { startId := 1, endId := 2 } else Option.none
    edgesOut := fun v => if v = 1 then [100] else []
    edgesIn := fun v => if v = 2 then [100] else []
    edgesSelf := fun _ => []
    isVertex := fun v => v == 1 || v == 2 }

/-- A concrete call-site context on the witness graph: vsid 1, veid 2,
bounds 1..1, direction RIGHT, no constraints. -/
def witness_ctx : PathFindingContext :=
  { vsid := 1
    veid := 2
    lidx := 1
    uidx := 1
    uidxInfinite := false
    edgeDirection := CypherRelDir.CYPHER_REL_DIR_RIGHT
    edgeOk := fun _ _ => true }

/- ===================================================================
   Theorems
   =================================================================== -/

/-- Helper: transform_create_cypher_edge fails on every undirected
relationship, whatever the parse state (one of the first three guards
fires, the third being the directedness check). -/
theorem transform_create_cypher_edge_undirected_fails
    (cps : CreateParseState) (r : CreateEdgePattern)
    (hdir : r.dir = CypherRelDir.CYPHER_REL_DIR_NONE) :
    ∃ msg, transform_create_cypher_edge cps r = Except.error msg := by
  unfold transform_create_cypher_edge
  split
  · exact ⟨_, rfl⟩
  · split
    · exact ⟨_, rfl⟩
    · rw [if_pos]
      · exact ⟨_, rfl⟩
      · simp [hdir]

/-- C9: transforming a CREATE pattern that contains an undirected
relationship always fails with an error, whatever the parse state and
whatever the other pattern items do. -/
theorem create_with_undirected_relationship_fails
    (cps : CreateParseState) (items : List CreatePatternItem)
    (h : ∃ r, CreatePatternItem.relItem r ∈ items ∧
          r.dir = CypherRelDir.CYPHER_REL_DIR_NONE) :
    ∃ msg, transform_cypher_create_path cps items = Except.error msg := by
  induction items with
  | nil =>
      rcases h with ⟨r, hr, _⟩
      simp at hr
  | cons i rest ih =>
      rcases h with ⟨r, hr, hdir⟩
      rcases List.mem_cons.mp hr with hhead | htail
      · subst hhead
        rcases transform_create_cypher_edge_undirected_fails cps r hdir with ⟨msg, hmsg⟩
        exact ⟨msg, by simp [transform_cypher_create_path, hmsg]⟩
      · cases i with
        | nodeItem n =>
            rcases ih ⟨r, htail, hdir⟩ with ⟨msg, hmsg⟩
            unfold transform_cypher_create_path
            cases hn : transform_create_cypher_node cps n with
            | error e => exact ⟨e, rfl⟩
            | ok _ => exact ⟨msg, hmsg⟩
        | relItem r2 =>
            rcases ih ⟨r, htail, hdir⟩ with ⟨msg, hmsg⟩
            unfold transform_cypher_create_path
            cases hn : transform_create_cypher_edge cps r2 with
            | error e => exact ⟨e, rfl⟩
            | ok _ => exact ⟨msg, hmsg⟩

/-- Witness for C9: the pattern of CREATE ()-[:X]-() RETURN 1 is
rejected. -/
theorem create_with_undirected_relationship_fails_witness :
    ∃ msg, transform_cypher_create_path empty_create_parse_state
      create_undirected_example_path = Except.error msg :=
  create_with_undirected_relationship_fails empty_create_parse_state
    create_undirected_example_path
    ⟨{ name := Option.none, label := some "X",
       dir := CypherRelDir.CYPHER_REL_DIR_NONE },
     by simp [create_undirected_example_path], rfl⟩

/-- C10 counterexample: the comparing predicates read only one 32-bit
entry of the 64-bit field, not the field itself.  The last edge of this
one-edge traversal ends exactly at the queried id 4294967301 (2^32 + 5),
so a comparison of the given id against the end-id field would yield
true; gid_is_last_endid instead compares the zero-extended single entry
(value 5) against the full id and returns false. -/
theorem gid_is_last_endid_reads_one_entry :
    last_item_as_edge ⟨[VEItem.edgeItem ⟨100, 7, 4294967301⟩]⟩ =
      some ⟨100, 7, 4294967301⟩ ∧
    (⟨100, 7, 4294967301⟩ : RawEdge).endId = (4294967301 : Int) ∧
    gid_is_last_endid 4294967301 ⟨[VEItem.edgeItem ⟨100, 7, 4294967301⟩]⟩ =
      some false := by
  refine ⟨rfl, rfl, ?_⟩
  decide

/-- C10 (amended): vertex_is_first_start_vertex, gid_is_first_endid and
vertex_is_first_end_vertex return true on every input (the unconditional
return precedes the comparison), while gid_is_first_startid and the four
last-edge predicates perform a real comparison — but only of the
zero-extended first 32-bit children entry of the corresponding edge
field (children[2] of the start id, children[4] of the end id), against
the full graphid argument for the gid variants and against the first
32-bit entry of the vertex's id for the vertex variants. -/
theorem variable_edge_endpoint_predicates
    (id : Int) (v : RawVertex) (ve : VariableEdgeVal) (e : RawEdge) :
    vertex_is_first_start_vertex v ve = some true ∧
    gid_is_first_endid id ve = some true ∧
    vertex_is_first_end_vertex v ve = some true ∧
    (first_item_as_edge ve = some e →
      gid_is_first_startid id ve = some (low_word e.startId == id)) ∧
    (last_item_as_edge ve = some e →
      gid_is_last_startid id ve = some (low_word e.startId == id) ∧
      vertex_is_last_start_vertex v ve =
        some (low_word e.startId == low_word v.id) ∧
      gid_is_last_endid id ve = some (low_word e.endId == id) ∧
      vertex_is_last_end_vertex v ve =
        some (low_word e.endId == low_word v.id)) := by
  refine ⟨rfl, rfl, rfl, ?_, ?_⟩
  · intro h
    simp [gid_is_first_startid, h]
  · intro h
    exact ⟨by simp [gid_is_last_startid, h],
           by simp [vertex_is_last_start_vertex, h],
           by simp [gid_is_last_endid, h],
           by simp [vertex_is_last_end_vertex, h]⟩

/-- Witness for C10 on a one-edge VariableEdge (edge id 100 from 1 to 2). -/
theorem variable_edge_endpoint_predicates_witness :
    vertex_is_first_start_vertex ⟨7⟩ ⟨[VEItem.edgeItem ⟨100, 1, 2⟩]⟩ = some true ∧
    gid_is_first_startid 1 ⟨[VEItem.edgeItem ⟨100, 1, 2⟩]⟩ =
      some (low_word (1 : Int) == (1 : Int)) ∧
    gid_is_last_endid 2 ⟨[VEItem.edgeItem ⟨100, 1, 2⟩]⟩ =
      some (low_word (2 : Int) == (2 : Int)) := by
  have h := variable_edge_endpoint_predicates 1 ⟨7⟩
    ⟨[VEItem.edgeItem ⟨100, 1, 2⟩]⟩ ⟨100, 1, 2⟩
  have h2 := variable_edge_endpoint_predicates 2 ⟨7⟩
    ⟨[VEItem.edgeItem ⟨100, 1, 2⟩]⟩ ⟨100, 1, 2⟩
  exact ⟨h.1, h.2.2.2.1 rfl, (h2.2.2.2.2 rfl).2.2.1⟩

/-- C6: the range defaults reaching the VLE engine.  A bare asterisk
yields bounds 1 to infinity; an omitted lower bound becomes 1; an omitted
upper bound becomes infinite; an exact count n yields bounds n to n. -/
theorem varlen_bound_defaults (n l u : Int) :
    varlen_engine_bounds CypherRangeSyntax.emptyRange =
      Except.ok { lidx := 1, uidx := -1, uidxInfinite := true } ∧
    varlen_engine_bounds (CypherRangeSyntax.single n) =
      Except.ok { lidx := n, uidx := n, uidxInfinite := false } ∧
    (1 ≤ u →
      varlen_engine_bounds (CypherRangeSyntax.dotdot Option.none (some u)) =
        Except.ok { lidx := 1, uidx := u, uidxInfinite := false }) ∧
    varlen_engine_bounds (CypherRangeSyntax.dotdot (some l) Option.none) =
      Except.ok { lidx := l, uidx := -1, uidxInfinite := true } ∧
    varlen_engine_bounds (CypherRangeSyntax.dotdot Option.none Option.none) =
      Except.ok { lidx := 1, uidx := -1, uidxInfinite := true } := by
  refine ⟨rfl, ?_, ?_, rfl, rfl⟩
  · simp [varlen_engine_bounds, cypher_varlen_opt, cypher_range_opt,
      build_VLE_relation_bound_args, build_vle_context_bounds, lt_irrefl]
  · intro hu
    simp [varlen_engine_bounds, cypher_varlen_opt, cypher_range_opt,
      build_VLE_relation_bound_args, build_vle_context_bounds, not_lt.mpr hu]

/-- Witness for C6 at u = 3. -/
theorem varlen_bound_defaults_witness :
    varlen_engine_bounds (CypherRangeSyntax.dotdot Option.none (some 3)) =
      Except.ok { lidx := 1, uidx := 3, uidxInfinite := false } :=
  (varlen_bound_defaults 0 0 3).2.2.1 (by norm_num)

/-- C8: a SKIP or LIMIT expression is rejected with an error exactly when
it contains a variable of the current query level; otherwise it is
accepted, wrapped in the int8 coercion. -/
theorem limit_rejects_current_level_vars (e : TExpr) :
    (contain_vars_of_level e 0 = true →
      transform_cypher_limit (some e) =
        Except.error "argument of LIMIT must not contain variables") ∧
    (contain_vars_of_level e 0 = false →
      transform_cypher_limit (some e) = Except.ok (some (TExpr.coerceInt8 e))) := by
  constructor
  · intro h
    simp [transform_cypher_limit, coerce_to_specific_type_int8,
      contain_vars_of_level, h]
  · intro h
    simp [transform_cypher_limit, coerce_to_specific_type_int8,
      contain_vars_of_level, h]

/-- Witness for C8: a level-0 variable reference is rejected, the
constant 3 is accepted. -/
theorem limit_rejects_current_level_vars_witness :
    transform_cypher_limit (some (TExpr.varRef 1 0)) =
      Except.error "argument of LIMIT must not contain variables" ∧
    transform_cypher_limit (some (TExpr.constInt 3)) =
      Except.ok (some (TExpr.coerceInt8 (TExpr.constInt 3))) :=
  ⟨(limit_rejects_current_level_vars (TExpr.varRef 1 0)).1 rfl,
   (limit_rejects_current_level_vars (TExpr.constInt 3)).2 rfl⟩

/-- C5 evidence: the operator table of is_A_Expr_a_comparison_operation
lists "=>" where the grammar produces ">=", so a left operand a >= b is
not recognized as a comparison and a >= b < c lowers to the flat
comparison (a >= b) < c instead of (a >= b) AND (b < c); the sibling
operator <= chains as documented. -/
theorem ge_comparison_chaining_broken :
    is_A_Expr_a_comparison_operation
      (PNode.aexpr ">=" (PNode.leaf 0) (PNode.leaf 1)) = false ∧
    build_comparison_expression
      (PNode.aexpr ">=" (PNode.leaf 0) (PNode.leaf 1)) (PNode.leaf 2) "<" =
      PNode.aexpr "<" (PNode.aexpr ">=" (PNode.leaf 0) (PNode.leaf 1))
        (PNode.leaf 2) ∧
    build_comparison_expression
      (PNode.aexpr "<=" (PNode.leaf 0) (PNode.leaf 1)) (PNode.leaf 2) "<" =
      PNode.bexpr BoolExprOp.AND_EXPR
        [PNode.aexpr "<=" (PNode.leaf 0) (PNode.leaf 1),
         PNode.aexpr "<" (PNode.leaf 1) (PNode.leaf 2)] :=
  ⟨rfl, rfl, rfl⟩

/-- C7 counterexample: an AND appearing as the right operand (for example
from a parenthesized conjunction) stays nested — the parser emits an AND
node with an AND node as a direct child. -/
theorem and_nested_under_and_counterexample :
    has_same_connective_child
      (make_and_expr (PNode.leaf 0)
        (make_and_expr (PNode.leaf 1) (PNode.leaf 2))) = true := by
  rfl

/-- Helper: folding make_and_expr over further operands onto an AND node
extends its flat operand list. -/
theorem foldl_make_and_expr_on_and (rest : List PNode) :
    ∀ args : List PNode,
      rest.foldl make_and_expr (PNode.bexpr BoolExprOp.AND_EXPR args) =
        PNode.bexpr BoolExprOp.AND_EXPR (args ++ rest) := by
  induction rest with
  | nil => intro args; simp
  | cons r rs ih =>
      intro args
      show rs.foldl make_and_expr
        (make_and_expr (PNode.bexpr BoolExprOp.AND_EXPR args) r) = _
      rw [show make_and_expr (PNode.bexpr BoolExprOp.AND_EXPR args) r =
        PNode.bexpr BoolExprOp.AND_EXPR (args ++ [r]) from rfl, ih]
      simp

/-- Helper: folding make_or_expr over further operands onto an OR node
extends its flat operand list. -/
theorem foldl_make_or_expr_on_or (rest : List PNode) :
    ∀ args : List PNode,
      rest.foldl make_or_expr (PNode.bexpr BoolExprOp.OR_EXPR args) =
        PNode.bexpr BoolExprOp.OR_EXPR (args ++ rest) := by
  induction rest with
  | nil => intro args; simp
  | cons r rs ih =>
      intro args
      show rs.foldl make_or_expr
        (make_or_expr (PNode.bexpr BoolExprOp.OR_EXPR args) r) = _
      rw [show make_or_expr (PNode.bexpr BoolExprOp.OR_EXPR args) r =
        PNode.bexpr BoolExprOp.OR_EXPR (args ++ [r]) from rfl, ih]
      simp

/-- Helper: make_and_expr on a non-AND left operand starts a fresh
two-operand AND node. -/
theorem make_and_expr_fresh (x r : PNode)
    (hx : is_bexpr_rooted BoolExprOp.AND_EXPR x = false) :
    make_and_expr x r = PNode.bexpr BoolExprOp.AND_EXPR [x, r] := by
  cases x with
  | aexpr o a b => rfl
  | leaf t => rfl
  | bexpr op args =>
      cases op with
      | AND_EXPR => simp [is_bexpr_rooted] at hx
      | OR_EXPR => rfl
      | NOT_EXPR => rfl

/-- Helper: make_or_expr on a non-OR left operand starts a fresh
two-operand OR node. -/
theorem make_or_expr_fresh (x r : PNode)
    (hx : is_bexpr_rooted BoolExprOp.OR_EXPR x = false) :
    make_or_expr x r = PNode.bexpr BoolExprOp.OR_EXPR [x, r] := by
  cases x with
  | aexpr o a b => rfl
  | leaf t => rfl
  | bexpr op args =>
      cases op with
      | OR_EXPR => simp [is_bexpr_rooted] at hx
      | AND_EXPR => rfl
      | NOT_EXPR => rfl

/-- Helper: an AND (resp. OR) node over operands none of which is rooted
in the same connective has no same-connective direct child. -/
theorem bexpr_no_same_child (op : BoolExprOp) (args : List PNode)
    (h : ∀ a ∈ args, is_bexpr_rooted op a = false) :
    has_same_connective_child (PNode.bexpr op args) = false := by
  unfold has_same_connective_child
  rw [Bool.and_eq_false_iff]
  right
  rw [List.any_eq_false]
  intro a ha
  have := h a ha
  cases a with
  | aexpr o l r => simp
  | leaf t => simp
  | bexpr op2 args2 =>
      simp only [is_bexpr_rooted] at this
      simpa using this

/-- C7 amended: the flattening inspects only the left operand, so the
left-deep chains the grammar's left-associative productions build are
flat — appending operands one by one to a non-AND (resp. non-OR) start
with only non-AND (resp. non-OR) operands yields one flat node with no
same-connective direct child — while a same-connective node supplied as
the right operand stays nested. -/
theorem and_or_left_chains_flat (x r : PNode) (xs : List PNode)
    (hx : is_bexpr_rooted BoolExprOp.AND_EXPR x = false)
    (hrA : is_bexpr_rooted BoolExprOp.AND_EXPR r = false)
    (hxs : ∀ a ∈ xs, is_bexpr_rooted BoolExprOp.AND_EXPR a = false)
    (hxo : is_bexpr_rooted BoolExprOp.OR_EXPR x = false)
    (hrO : is_bexpr_rooted BoolExprOp.OR_EXPR r = false)
    (hxso : ∀ a ∈ xs, is_bexpr_rooted BoolExprOp.OR_EXPR a = false) :
    ((r :: xs).foldl make_and_expr x =
        PNode.bexpr BoolExprOp.AND_EXPR (x :: r :: xs) ∧
      has_same_connective_child ((r :: xs).foldl make_and_expr x) = false) ∧
    ((r :: xs).foldl make_or_expr x =
        PNode.bexpr BoolExprOp.OR_EXPR (x :: r :: xs) ∧
      has_same_connective_child ((r :: xs).foldl make_or_expr x) = false) := by
  refine ⟨⟨?_, ?_⟩, ⟨?_, ?_⟩⟩
  · show xs.foldl make_and_expr (make_and_expr x r) = _
    rw [make_and_expr_fresh x r hx, foldl_make_and_expr_on_and]
    rfl
  · show has_same_connective_child (xs.foldl make_and_expr (make_and_expr x r)) = false
    rw [make_and_expr_fresh x r hx, foldl_make_and_expr_on_and]
    refine bexpr_no_same_child _ _ ?_
    intro a ha
    rcases List.mem_append.mp ha with h1 | h2
    · rcases List.mem_pair.mp h1 with rfl | rfl
      · exact hx
      · exact hrA
    · exact hxs a h2
  · show xs.foldl make_or_expr (make_or_expr x r) = _
    rw [make_or_expr_fresh x r hxo, foldl_make_or_expr_on_or]
    rfl
  · show has_same_connective_child (xs.foldl make_or_expr (make_or_expr x r)) = false
    rw [make_or_expr_fresh x r hxo, foldl_make_or_expr_on_or]
    refine bexpr_no_same_child _ _ ?_
    intro a ha
    rcases List.mem_append.mp ha with h1 | h2
    · rcases List.mem_pair.mp h1 with rfl | rfl
      · exact hxo
      · exact hrO
    · exact hxso a h2

/-- Witness for the amended C7: a < b AND c AND d style left chain is one
flat AND node. -/
theorem and_or_left_chains_flat_witness :
    ([PNode.leaf 1, PNode.leaf 2].foldl make_and_expr (PNode.leaf 0) =
        PNode.bexpr BoolExprOp.AND_EXPR
          [PNode.leaf 0, PNode.leaf 1, PNode.leaf 2] ∧
      has_same_connective_child
        ([PNode.leaf 1, PNode.leaf 2].foldl make_and_expr (PNode.leaf 0)) = false) ∧
    ([PNode.leaf 1, PNode.leaf 2].foldl make_or_expr (PNode.leaf 0) =
        PNode.bexpr BoolExprOp.OR_EXPR
          [PNode.leaf 0, PNode.leaf 1, PNode.leaf 2] ∧
      has_same_connective_child
        ([PNode.leaf 1, PNode.leaf 2].foldl make_or_expr (PNode.leaf 0)) = false) :=
  and_or_left_chains_flat (PNode.leaf 0) (PNode.leaf 1) [PNode.leaf 2]
    rfl rfl (by intro a ha; simp at ha; subst ha; rfl)
    rfl rfl (by intro a ha; simp at ha; subst ha; rfl)

/-- C2 counterexample: a MATCH clause with two single-edge paths has two
edges in total, yet the transformer emits no _ag_enforce_edge_uniqueness
predicate at all — the per-path test (more than 3 entities) fails for
each path, so the claimed clause-wide predicate over both edges does not
exist. -/
theorem match_uniqueness_not_clause_wide :
    match_pattern_edge_count two_single_edge_paths = 2 ∧
    transform_match_pattern_uniqueness two_single_edge_paths = [] ∧
    match_pattern_all_edge_refs two_single_edge_paths =
      [EdgeRef.idCol "e1", EdgeRef.idCol "e2"] := by
  exact ⟨rfl, rfl, rfl⟩

/-- Helper: the entity list of one path has one vertex entity plus an
edge (or VLE-edge) entity and a vertex entity per relationship. -/
theorem transform_match_entities_length (p : MatchPath) :
    (transform_match_entities p).length = 2 * p.tail.length + 1 := by
  unfold transform_match_entities
  rw [List.length_cons]
  have step : ∀ t : List (MatchRel × String),
      ((t.map (fun rn =>
        [(if rn.1.isVLE then MatchEntity.entVleEdge rn.1.relName
          else MatchEntity.entEdge rn.1.relName),
         MatchEntity.entVertex rn.2])).flatten).length = 2 * t.length := by
    intro t
    induction t with
    | nil => simp
    | cons h t2 ih =>
        rw [List.map_cons, List.flatten_cons, List.length_append, ih,
          List.length_cons]
        show 2 + 2 * t2.length = 2 * (t2.length + 1)
        omega
  rw [step]

/-- Helper: the uniqueness arguments collected from one path are exactly
one reference per relationship — the id column of a fixed edge, the
edges output column of a VLE edge. -/
theorem prevent_duplicate_edges_refs (p : MatchPath) :
    prevent_duplicate_edges (transform_match_entities p) =
      p.tail.map (fun rn =>
        if rn.1.isVLE then EdgeRef.edgesCol rn.1.relName
        else EdgeRef.idCol rn.1.relName) := by
  unfold prevent_duplicate_edges transform_match_entities
  rw [List.filterMap_cons]
  induction p.tail with
  | nil => rfl
  | cons h t ih =>
      rw [List.map_cons, List.flatten_cons, List.map_cons]
      cases hb : h.1.isVLE <;>
        simp only [hb, if_true, if_false, List.cons_append,
          List.filterMap_cons] <;>
        simpa using ih

/-- C2 amended: the transformer emits one _ag_enforce_edge_uniqueness
predicate per path that has at least two relationships (more than 3
entities), covering exactly that path's relationships; paths with at most
one relationship contribute no predicate, and no predicate spans two
paths. -/
theorem match_uniqueness_per_path (pattern : List MatchPath) :
    transform_match_pattern_uniqueness pattern =
      (pattern.filter (fun p => 2 ≤ p.tail.length)).map
        (fun p => p.tail.map (fun rn =>
          if rn.1.isVLE then EdgeRef.edgesCol rn.1.relName
          else EdgeRef.idCol rn.1.relName)) := by
  induction pattern with
  | nil => rfl
  | cons p rest ih =>
      unfold transform_match_pattern_uniqueness at ih ⊢
      simp only [List.map_cons, List.flatten_cons]
      rw [ih]
      unfold transform_match_path_uniqueness
      by_cases hp : 2 ≤ p.tail.length
      · have h3 : 3 < (transform_match_entities p).length := by
          rw [transform_match_entities_length]; omega
        rw [if_pos h3, List.filter_cons_of_pos (by simpa using hp),
          List.map_cons, prevent_duplicate_edges_refs]
        rfl
      · have h3 : ¬ 3 < (transform_match_entities p).length := by
          rw [transform_match_entities_length]; omega
        rw [if_neg h3, List.filter_cons_of_neg (by simpa using hp)]
        rfl

/-- C3 evidence: transform_cypher_clause_with_where never transforms the
WHERE expression of a WITH clause (the wrapper query it builds carries a
NULL jointree qual, and the where field is not even copied into the
rebuilt RETURN clause), so for the clause WITH 1 AS x WHERE false every
input row still produces an output row, whatever value the where read
yields; the specified semantics would filter all rows out. -/
theorem with_where_filter_dropped (whereRead : Option WExpr) :
    emitted_qual (transform_cypher_with with_false_where_clause whereRead) =
      Option.none ∧
    run_emitted [[]] (transform_cypher_with with_false_where_clause whereRead) =
      [[("x", GValue.gint 1)]] ∧
    with_where_claimed_semantics with_false_where_clause [[]] = [] := by
  cases whereRead with
  | none => exact ⟨rfl, rfl, rfl⟩
  | some e => exact ⟨rfl, rfl, rfl⟩

/-- C4 counterexample: with arguments (graphid 1, graphid 1, NULL) the
function hits the duplicate first and returns false — no error is raised
even though an argument is NULL, contradicting the claim that a NULL
argument always raises an error. -/
theorem enforce_uniqueness_null_after_duplicate :
    UniqArg.nullArg ∈ [UniqArg.gid 1, UniqArg.gid 1, UniqArg.nullArg] ∧
    _ag_enforce_edge_uniqueness [UniqArg.gid 1, UniqArg.gid 1, UniqArg.nullArg] =
      some false := by
  exact ⟨by decide, rfl⟩

/-- Helper: insert_ids succeeds exactly on duplicate-free extensions,
returning the extended hash contents. -/
theorem insert_ids_spec (ids : List Int) :
    ∀ seen : List Int, seen.Nodup →
      ((seen ++ ids).Nodup → insert_ids seen ids = some (ids.reverse ++ seen)) ∧
      (¬ (seen ++ ids).Nodup → insert_ids seen ids = Option.none) := by
  induction ids with
  | nil =>
      intro seen hseen
      exact ⟨fun _ => by simp [insert_ids],
             fun hn => absurd (by simpa using hseen) hn⟩
  | cons i rest ih =>
      intro seen hseen
      have hmid : List.Perm (seen ++ i :: rest) (i :: (seen ++ rest)) :=
        List.perm_middle
      constructor
      · intro hnd
        have hi : i ∉ seen := by
          intro hmem
          rcases List.nodup_append.mp hnd with ⟨_, _, hdisj⟩
          exact hdisj hmem (by simp)
        have hnd2 : ((i :: seen) ++ rest).Nodup := hmid.nodup_iff.mp hnd
        have h2 := ih (i :: seen) (List.nodup_cons.mpr ⟨hi, hseen⟩)
        show (if i ∈ seen then Option.none else insert_ids (i :: seen) rest) = _
        rw [if_neg hi, h2.1 hnd2]
        simp [List.append_assoc]
      · intro hnnd
        show (if i ∈ seen then Option.none else insert_ids (i :: seen) rest) =
          Option.none
        by_cases hi : i ∈ seen
        · rw [if_pos hi]
        · rw [if_neg hi]
          refine (ih (i :: seen) (List.nodup_cons.mpr ⟨hi, hseen⟩)).2 ?_
          intro hcontra
          exact hnnd (hmid.nodup_iff.mpr hcontra)

/-- Helper: the argument loop, characterized for an arbitrary
duplicate-free hash content. -/
theorem enforce_loop_spec (args : List UniqArg) :
    ∀ seen : List Int, seen.Nodup →
      enforce_uniqueness_loop seen args =
        (match args_before_first_null args with
         | Option.none => some (decide (seen ++ collected_ids args).Nodup)
         | some pre =>
             if (seen ++ collected_ids pre).Nodup then Option.none
             else some false) := by
  induction args with
  | nil =>
      intro seen hseen
      simp [enforce_uniqueness_loop, args_before_first_null, collected_ids, hseen]
  | cons a rest ih =>
      intro seen hseen
      cases a with
      | nullArg =>
          simp [enforce_uniqueness_loop, args_before_first_null,
            collected_ids, hseen]
      | gid id =>
          have hcoll : collected_ids (UniqArg.gid id :: rest) =
              id :: collected_ids rest := by
            simp [collected_ids, uniq_arg_ids]
          have habfn : args_before_first_null (UniqArg.gid id :: rest) =
              (match args_before_first_null rest with
               | some pre => some (UniqArg.gid id :: pre)
               | Option.none => Option.none) := rfl
          have hpermX : ∀ X : List Int,
              ((id :: seen) ++ X).Nodup ↔ (seen ++ id :: X).Nodup := by
            intro X
            exact Iff.intro
              (fun h => List.perm_middle.nodup_iff.mpr h)
              (fun h => List.perm_middle.nodup_iff.mp h)
          show (if id ∈ seen then some false
                else enforce_uniqueness_loop (id :: seen) rest) = _
          by_cases hi : id ∈ seen
          · rw [if_pos hi, habfn]
            have hbad : ∀ X : List Int, ¬ (seen ++ id :: X).Nodup := by
              intro X hnd
              rcases List.nodup_append.mp hnd with ⟨_, _, hdisj⟩
              exact hdisj hi (by simp)
            cases habfn2 : args_before_first_null rest with
            | none =>
                simp only [hcoll]
                rw [decide_eq_false (hbad (collected_ids rest))]
            | some pre =>
                have hc2 : collected_ids (UniqArg.gid id :: pre) =
                    id :: collected_ids pre := by
                  simp [collected_ids, uniq_arg_ids]
                simp only [hc2]
                rw [if_neg (hbad (collected_ids pre))]
          · rw [if_neg hi,
              ih (id :: seen) (List.nodup_cons.mpr ⟨hi, hseen⟩), habfn]
            cases habfn2 : args_before_first_null rest with
            | none =>
                simp only [hcoll]
                congr 1
                exact decide_eq_decide.mpr (hpermX (collected_ids rest))
            | some pre =>
                have hc2 : collected_ids (UniqArg.gid id :: pre) =
                    id :: collected_ids pre := by
                  simp [collected_ids, uniq_arg_ids]
                simp only [hc2]
                rw [if_congr (hpermX (collected_ids pre)) rfl rfl]
      | vedge cs =>
          have hcoll : collected_ids (UniqArg.vedge cs :: rest) =
              even_position_ids cs ++ collected_ids rest := by
            simp [collected_ids, uniq_arg_ids]
          have habfn : args_before_first_null (UniqArg.vedge cs :: rest) =
              (match args_before_first_null rest with
               | some pre => some (UniqArg.vedge cs :: pre)
               | Option.none => Option.none) := rfl
          have hins := insert_ids_spec (even_position_ids cs) seen hseen
          by_cases hnd : (seen ++ even_position_ids cs).Nodup
          · have hperm : ∀ X : List Int,
                (((even_position_ids cs).reverse ++ seen) ++ X).Nodup ↔
                ((seen ++ even_position_ids cs) ++ X).Nodup := by
              intro X
              refine List.Perm.nodup_iff (List.Perm.append_right X ?_)
              exact ((even_position_ids cs).reverse_perm.append
                (List.Perm.refl seen)).trans List.perm_append_comm
            have hseen2 : ((even_position_ids cs).reverse ++ seen).Nodup := by
              have h1 := (hperm []).mpr (by simpa using hnd)
              simpa using h1
            show (match insert_ids seen (even_position_ids cs) with
                  | Option.none => some false
                  | some seen2 => enforce_uniqueness_loop seen2 rest) = _
            rw [hins.1 hnd]
            show enforce_uniqueness_loop
              ((even_position_ids cs).reverse ++ seen) rest = _
            rw [ih _ hseen2, habfn]
            cases habfn2 : args_before_first_null rest with
            | none =>
                simp only [hcoll]
                congr 1
                refine decide_eq_decide.mpr ?_
                rw [← List.append_assoc]
                exact hperm (collected_ids rest)
            | some pre =>
                have hc2 : collected_ids (UniqArg.vedge cs :: pre) =
                    even_position_ids cs ++ collected_ids pre := by
                  simp [collected_ids, uniq_arg_ids]
                simp only [hc2]
                refine if_congr ?_ rfl rfl
                rw [← List.append_assoc]
                exact hperm (collected_ids pre)
          · show (match insert_ids seen (even_position_ids cs) with
                  | Option.none => some false
                  | some seen2 => enforce_uniqueness_loop seen2 rest) = _
            rw [hins.2 hnd]
            show some false = _
            rw [habfn]
            have hbad : ∀ X : List Int,
                ¬ (seen ++ (even_position_ids cs ++ X)).Nodup := by
              intro X hcontra
              rw [← List.append_assoc] at hcontra
              exact hnd hcontra.of_append_left
            cases habfn2 : args_before_first_null rest with
            | none =>
                simp only [hcoll]
                rw [decide_eq_false (hbad (collected_ids rest))]
            | some pre =>
                have hc2 : collected_ids (UniqArg.vedge cs :: pre) =
                    even_position_ids cs ++ collected_ids pre := by
                  simp [collected_ids, uniq_arg_ids]
                simp only [hc2]
                rw [if_neg (hbad (collected_ids pre))]

/-- C4 amended: when no argument is NULL the function returns false
exactly when some collected id occurs twice (a graphid argument
contributes itself, a VariableEdge argument the ids at the even positions
of its children — its edges) and true otherwise; a NULL argument raises
the error only when no duplicate occurs among the ids collected from the
arguments examined before it. -/
theorem enforce_uniqueness_characterization (args : List UniqArg) :
    _ag_enforce_edge_uniqueness args =
      (match args_before_first_null args with
       | Option.none => some (decide (collected_ids args).Nodup)
       | some pre =>
           if (collected_ids pre).Nodup then Option.none else some false) := by
  have h := enforce_loop_spec args [] List.nodup_nil
  simpa [_ag_enforce_edge_uniqueness] using h

/-- Helper: on a sound queue entry, get_next_vertex succeeds and agrees
with the container's interior-vertex reconstruction rule. -/
theorem get_next_vertex_eq (g : VleGraph) (dir : CypherRelDir)
    (src e : GraphId) (ee : EdgeEntry) (hee : g.edgeEntry e = some ee)
    (hok : entry_ok g dir src e) :
    get_next_vertex dir src ee = some (next_path_vertex g src e) := by
  rcases hok with ⟨ee2, hee2, hcase⟩
  rw [hee] at hee2
  injection hee2 with hee2
  subst hee2
  unfold next_path_vertex get_next_vertex
  rw [hee]
  cases dir with
  | CYPHER_REL_DIR_RIGHT =>
      simp only at hcase
      simp [hcase]
  | CYPHER_REL_DIR_LEFT =>
      simp only at hcase
      by_cases h1 : src = ee.startId
      · subst h1
        simp [hcase]
      · simp [h1]
  | CYPHER_REL_DIR_NONE =>
      simp only at hcase
      by_cases h1 : ee.startId = src
      · simp [h1]
      · have h2 : ee.endId = src := hcase.resolve_left h1
        have h1b : ¬ src = ee.startId := fun h => h1 h.symm
        simp [h1, h1b, h2]

/-- Helper: walk_end over an appended edge. -/
theorem walk_end_append_single (g : VleGraph) (v0 : GraphId)
    (cs : List GraphId) (e : GraphId) :
    walk_end g v0 (cs ++ [e]) = next_path_vertex g (walk_end g v0 cs) e := by
  unfold walk_end
  rw [List.foldl_append]
  rfl

/-- Helper: the walk endpoint index of the stack invariant is the walk
endpoint of the chronological path. -/
theorem stackinv_walk_end (g : VleGraph) (dir : CypherRelDir)
    (vsid w : GraphId) (S : List (GraphId × GraphId)) (path : List GraphId)
    (h : StackInv g dir vsid w S path) :
    w = walk_end g vsid path.reverse := by
  induction h with
  | base B hB => rfl
  | step w2 srcp B S2 p path2 hB hS hp hw ih =>
      rw [List.reverse_cons, walk_end_append_single, ← ih, hw]

/-- Helper: every edge listed by dir_edge_lists of a well-formed graph is
a sound queue entry for that vertex. -/
theorem entry_ok_of_dir_lists (g : VleGraph) (wf : VleGraphWF g)
    (dir : CypherRelDir) (v e : GraphId)
    (hmem : e ∈ dir_edge_lists g dir v) :
    entry_ok g dir v e := by
  unfold dir_edge_lists at hmem
  rcases List.mem_append.mp hmem with h12 | hself
  · rcases List.mem_append.mp h12 with hout | hin
    · have hd : dir ≠ CypherRelDir.CYPHER_REL_DIR_LEFT := by
        intro hcon
        rw [hcon] at hout
        simp at hout
      have hout2 : e ∈ g.edgesOut v := by
        rcases dir <;> simp at hout hd ⊢ <;> try exact hout
      rcases wf.outOk v e hout2 with ⟨ee, hee, hs⟩
      refine ⟨ee, hee, ?_⟩
      cases dir with
      | CYPHER_REL_DIR_RIGHT => exact hs
      | CYPHER_REL_DIR_LEFT => exact absurd rfl hd
      | CYPHER_REL_DIR_NONE => exact Or.inl hs
    · have hd : dir ≠ CypherRelDir.CYPHER_REL_DIR_RIGHT := by
        intro hcon
        rw [hcon] at hin
        simp at hin
      have hin2 : e ∈ g.edgesIn v := by
        rcases dir <;> simp at hin hd ⊢ <;> try exact hin
      rcases wf.inOk v e hin2 with ⟨ee, hee, hs⟩
      refine ⟨ee, hee, ?_⟩
      cases dir with
      | CYPHER_REL_DIR_RIGHT => exact absurd rfl hd
      | CYPHER_REL_DIR_LEFT => exact hs
      | CYPHER_REL_DIR_NONE => exact Or.inr hs
  · rcases wf.selfOk v e hself with ⟨ee, hee, hs, he⟩
    refine ⟨ee, hee, ?_⟩
    cases dir with
    | CYPHER_REL_DIR_RIGHT => exact hs
    | CYPHER_REL_DIR_LEFT => exact he
    | CYPHER_REL_DIR_NONE => exact Or.inl hs

/-- Helper: characterization of the entries add_edges pushes. -/
theorem mem_add_edges_new (ctx : PathFindingContext) (g : VleGraph)
    (vis : List GraphId) (v : GraphId) (q : GraphId × GraphId)
    (hq : q ∈ ((dir_edge_lists g ctx.edgeDirection v).filter
      (edge_passes ctx g vis)).reverse.map (fun e => (v, e))) :
    q.1 = v ∧ q.2 ∈ dir_edge_lists g ctx.edgeDirection v ∧ q.2 ∉ vis := by
  rcases List.mem_map.mp hq with ⟨e, he, hqe⟩
  rw [List.mem_reverse] at he
  rcases List.mem_filter.mp he with ⟨hmem, hpass⟩
  have hfresh : e ∉ vis := by
    intro hcon
    simp [edge_passes, hcon] at hpass
  subst hqe
  exact ⟨rfl, hmem, hfresh⟩

/-- Helper: add_edges at the current walk endpoint preserves the stack
invariant (the new sibling block sits on top, sourced at the walk
endpoint, sound, and fresh thanks to the visited filter). -/
theorem add_edges_stackinv (ctx : PathFindingContext) (g : VleGraph)
    (wf : VleGraphWF g) (eqQ : List (GraphId × GraphId))
    (pq vis : List GraphId) (v : GraphId)
    (hSI : StackInv g ctx.edgeDirection ctx.vsid v eqQ pq)
    (hvis : ∀ x, x ∈ vis ↔ x ∈ pq) :
    StackInv g ctx.edgeDirection ctx.vsid v
      (add_edges ctx g ⟨eqQ, pq, vis⟩ v).edgeQueue pq := by
  show StackInv g ctx.edgeDirection ctx.vsid v
    (((dir_edge_lists g ctx.edgeDirection v).filter
      (edge_passes ctx g vis)).reverse.map (fun e => (v, e)) ++ eqQ) pq
  cases hSI
  case base hB =>
      refine StackInv.base _ ?_
      intro q hq
      rcases List.mem_append.mp hq with hnew | hold
      · rcases mem_add_edges_new ctx g vis ctx.vsid q hnew with ⟨h1, h2, _⟩
        exact ⟨h1, entry_ok_of_dir_lists g wf _ _ _ h2⟩
      · exact hB q hold
  case step srcp B S p path hS hp hB hw =>
      rw [← List.append_assoc]
      refine StackInv.step v srcp _ S p path ?_ hS hp hw
      intro q hq
      rcases List.mem_append.mp hq with hnew | hold
      · rcases mem_add_edges_new ctx g vis v q hnew with ⟨h1, h2, h3⟩
        refine ⟨h1, entry_ok_of_dir_lists g wf _ _ _ h2, ?_⟩
        intro hcon
        exact h3 ((hvis q.2).mpr hcon)
      · exact hB q hold

/-- Helper: processing an unvisited top entry.  Its source is the current
walk endpoint, it is sound, and pushing it onto the path re-establishes
the stack invariant at the next vertex (the entry itself becomes the new
top path entry with an empty sibling block above it). -/
theorem stackinv_top_unvisited (g : VleGraph) (dir : CypherRelDir)
    (vsid w : GraphId) (S : List (GraphId × GraphId)) (path : List GraphId)
    (hSI : StackInv g dir vsid w S path) :
    ∀ src e rest, S = (src, e) :: rest → e ∉ path →
      src = w ∧ entry_ok g dir w e ∧
      StackInv g dir vsid (next_path_vertex g w e) S (e :: path) := by
  cases hSI
  case base hB =>
      intro src e rest hS hfresh
      rcases hB (src, e) (by rw [hS]; exact List.mem_cons_self _ _) with ⟨h1, h2⟩
      subst h1
      refine ⟨rfl, h2, ?_⟩
      rw [hS]
      have hrest : ∀ q ∈ rest, q.1 = src ∧ entry_ok g dir src q.2 := by
        intro q hq
        exact hB q (by rw [hS]; exact List.mem_cons_of_mem _ hq)
      exact StackInv.step _ src [] rest e []
        (by intro q hq; simp at hq) (StackInv.base rest hrest) h2 rfl
  case step srcp B S2 p path2 hS2 hp hB hw =>
      intro src e rest hS hfresh
      cases B with
      | nil =>
          simp at hS
          rcases hS with ⟨⟨h1, h2⟩, h3⟩
          subst h2
          exact absurd (List.mem_cons_self _ _) hfresh
      | cons q B2 =>
          rw [List.cons_append] at hS
          injection hS with hq hrest
          subst hq
          rcases hB (src, e) (List.mem_cons_self _ _) with ⟨h1, h2, h3⟩
          subst h1
          refine ⟨rfl, h2, ?_⟩
          have hB2 : ∀ q ∈ B2, q.1 = src ∧ entry_ok g dir src q.2 ∧
              q.2 ∉ p :: path2 := by
            intro q hq
            exact hB q (List.mem_cons_of_mem _ hq)
          have hSub : StackInv g dir vsid src (B2 ++ (srcp, p) :: S2)
              (p :: path2) :=
            StackInv.step src srcp B2 S2 p path2 hB2 hS2 hp hw
          rw [List.cons_append]
          exact StackInv.step _ src [] (B2 ++ (srcp, p) :: S2) e (p :: path2)
            (by intro q hq; simp at hq) hSub h2 rfl

/-- Helper: a visited top entry is the top path entry: the path starts
with that edge and popping both re-establishes the invariant at the
entry's own source vertex. -/
theorem stackinv_top_visited (g : VleGraph) (dir : CypherRelDir)
    (vsid w : GraphId) (S : List (GraphId × GraphId)) (path : List GraphId)
    (hSI : StackInv g dir vsid w S path) :
    ∀ src e rest, S = (src, e) :: rest → e ∈ path →
      ∃ path2, path = e :: path2 ∧ StackInv g dir vsid src rest path2 := by
  cases hSI
  case base hB =>
      intro src e rest hS hmem
      simp at hmem
  case step srcp B S2 p path2 hS2 hp hB hw =>
      intro src e rest hS hmem
      cases B with
      | nil =>
          simp at hS
          rcases hS with ⟨⟨h1, h2⟩, h3⟩
          subst h1
          subst h2
          subst h3
          exact ⟨path2, rfl, hS2⟩
      | cons q B2 =>
          rw [List.cons_append] at hS
          injection hS with hq hrest
          subst hq
          rcases hB (src, e) (List.mem_cons_self _ _) with ⟨h1, h2, h3⟩
          exact absurd hmem h3

/-- One loop iteration on a visited top edge that is the last path edge:
pop it from the path, reset its flag, pop the queue. -/
theorem dfs_step_visited (ctx : PathFindingContext) (g : VleGraph)
    (fuel : Nat) (src e : GraphId) (rest : List (GraphId × GraphId))
    (PQ VIS : List GraphId) (hv : e ∈ VIS)
    (hbt : (PQ.head? == some e) = true) :
    dfs_find_a_path_between ctx g (Nat.succ fuel) ⟨(src, e) :: rest, PQ, VIS⟩ =
    dfs_find_a_path_between ctx g fuel ⟨rest, PQ.tail, VIS.erase e⟩ := by
  rw [dfs_find_a_path_between]
  dsimp only
  rw [if_pos hv, if_pos hbt, if_pos hbt]

/-- One loop iteration on an unvisited top edge with a known entry and
next vertex: mark, push, and branch on the bound tests. -/
theorem dfs_step_unvisited (ctx : PathFindingContext) (g : VleGraph)
    (fuel : Nat) (src e : GraphId) (rest : List (GraphId × GraphId))
    (PQ VIS : List GraphId) (hv : ¬ e ∈ VIS)
    (ee : EdgeEntry) (hee : g.edgeEntry e = some ee)
    (v : GraphId) (hnext : get_next_vertex ctx.edgeDirection src ee = some v) :
    dfs_find_a_path_between ctx g (Nat.succ fuel) ⟨(src, e) :: rest, PQ, VIS⟩ =
    (if (v == ctx.veid && !ctx.uidxInfinite &&
          decide (ctx.uidx < ((e :: PQ).length : Int))) = true then
       dfs_find_a_path_between ctx g fuel ⟨(src, e) :: rest, e :: PQ, e :: VIS⟩
     else
       let st3 := if (ctx.uidxInfinite ||
            decide (((e :: PQ).length : Int) < ctx.uidx)) = true then
          add_edges ctx g ⟨(src, e) :: rest, e :: PQ, e :: VIS⟩ v
        else ⟨(src, e) :: rest, e :: PQ, e :: VIS⟩
       if (v == ctx.veid && decide (ctx.lidx ≤ ((e :: PQ).length : Int)) &&
            (ctx.uidxInfinite || decide (((e :: PQ).length : Int) ≤ ctx.uidx))) = true then
         DfsOutcome.found st3
       else dfs_find_a_path_between ctx g fuel st3) := by
  rw [dfs_find_a_path_between]
  dsimp only
  rw [if_neg hv, hee]
  dsimp only
  rw [hnext]

/-- Invariant preservation and the found-state guarantees of
dfs_find_a_path_between: from an invariant state, the search never gets
stuck, every exit state satisfies the invariant, and a found state has a
nonempty path whose walk ends at veid with its edge count within the
bounds. -/
theorem dfs_preserves (ctx : PathFindingContext) (g : VleGraph)
    (wf : VleGraphWF g) :
    ∀ (fuel : Nat) (st : DfsState), DfsInv ctx g st →
      (match dfs_find_a_path_between ctx g fuel st with
       | DfsOutcome.found st2 =>
           DfsInv ctx g st2 ∧ st2.pathQueue ≠ [] ∧
           walk_end g ctx.vsid st2.pathQueue.reverse = ctx.veid ∧
           ctx.lidx ≤ (st2.pathQueue.length : Int) ∧
           (ctx.uidxInfinite = true ∨ (st2.pathQueue.length : Int) ≤ ctx.uidx)
       | DfsOutcome.exhausted st2 => DfsInv ctx g st2
       | DfsOutcome.fuelOut st2 => DfsInv ctx g st2
       | DfsOutcome.stuck _ => False) := by
  intro fuel
  induction fuel with
  | zero =>
      intro st hInv
      exact hInv
  | succ fuel ih =>
      intro st hInv
      obtain ⟨EQ, PQ, VIS⟩ := st
      cases EQ with
      | nil => exact hInv
      | cons q rest =>
          obtain ⟨src, e⟩ := q
          by_cases hv : e ∈ VIS
          · rcases hInv.stackInv with ⟨w, hSI⟩
            rcases stackinv_top_visited g ctx.edgeDirection ctx.vsid w _ _ hSI
              src e rest rfl ((hInv.visIff e).mp hv) with ⟨path2, hPQ, hS2⟩
            subst hPQ
            have hbt : ((e :: path2).head? == some e) = true := by simp
            rw [dfs_step_visited ctx g fuel src e rest (e :: path2) VIS hv hbt]
            have hepath : e ∉ path2 := (List.nodup_cons.mp hInv.pathNodup).1
            refine ih ⟨rest, path2, VIS.erase e⟩ ⟨?_, ?_, ?_, ⟨src, hS2⟩⟩
            · intro x
              rw [hInv.visNodup.mem_erase_iff]
              constructor
              · rintro ⟨hne, hxv⟩
                rcases List.mem_cons.mp ((hInv.visIff x).mp hxv) with rfl | h
                · exact absurd rfl hne
                · exact h
              · intro hx
                refine ⟨?_, (hInv.visIff x).mpr (List.mem_cons_of_mem _ hx)⟩
                intro heq
                subst heq
                exact hepath hx
            · exact (List.nodup_cons.mp hInv.pathNodup).2
            · exact hInv.visNodup.erase e
          · rcases hInv.stackInv with ⟨w, hSI⟩
            have hfresh : e ∉ PQ := fun hc => hv ((hInv.visIff e).mpr hc)
            obtain ⟨hsrc, hok, hSInew⟩ :=
              stackinv_top_unvisited g ctx.edgeDirection ctx.vsid w _ _ hSI
                src e rest rfl hfresh
            subst hsrc
            obtain ⟨ee, hee, hpos⟩ := hok
            have hnext := get_next_vertex_eq g ctx.edgeDirection src e ee hee
              ⟨ee, hee, hpos⟩
            rw [dfs_step_unvisited ctx g fuel src e rest PQ VIS hv ee hee _ hnext]
            have hvis2 : ∀ x, x ∈ e :: VIS ↔ x ∈ e :: PQ := by
              intro x
              simp only [List.mem_cons]
              exact or_congr Iff.rfl (hInv.visIff x)
            have hInv2 : DfsInv ctx g ⟨(src, e) :: rest, e :: PQ, e :: VIS⟩ :=
              ⟨hvis2, List.nodup_cons.mpr ⟨hfresh, hInv.pathNodup⟩,
               List.nodup_cons.mpr ⟨hv, hInv.visNodup⟩,
               ⟨next_path_vertex g src e, hSInew⟩⟩
            by_cases hc1 : (next_path_vertex g src e == ctx.veid &&
                !ctx.uidxInfinite &&
                decide (ctx.uidx < ((e :: PQ).length : Int))) = true
            · rw [if_pos hc1]
              exact ih _ hInv2
            · rw [if_neg hc1]
              dsimp only
              have hInv3 : DfsInv ctx g
                  (if (ctx.uidxInfinite ||
                      decide (((e :: PQ).length : Int) < ctx.uidx)) = true then
                    add_edges ctx g ⟨(src, e) :: rest, e :: PQ, e :: VIS⟩
                      (next_path_vertex g src e)
                  else ⟨(src, e) :: rest, e :: PQ, e :: VIS⟩) := by
                by_cases hc2 : (ctx.uidxInfinite ||
                    decide (((e :: PQ).length : Int) < ctx.uidx)) = true
                · rw [if_pos hc2]
                  exact ⟨hvis2, List.nodup_cons.mpr ⟨hfresh, hInv.pathNodup⟩,
                    List.nodup_cons.mpr ⟨hv, hInv.visNodup⟩,
                    ⟨next_path_vertex g src e,
                     add_edges_stackinv ctx g wf ((src, e) :: rest) (e :: PQ)
                       (e :: VIS) (next_path_vertex g src e) hSInew hvis2⟩⟩
                · rw [if_neg hc2]
                  exact hInv2
              have hPQ3 : (if (ctx.uidxInfinite ||
                    decide (((e :: PQ).length : Int) < ctx.uidx)) = true then
                    add_edges ctx g ⟨(src, e) :: rest, e :: PQ, e :: VIS⟩
                      (next_path_vertex g src e)
                  else ⟨(src, e) :: rest, e :: PQ, e :: VIS⟩).pathQueue =
                  e :: PQ := by
                by_cases hc2 : (ctx.uidxInfinite ||
                    decide (((e :: PQ).length : Int) < ctx.uidx)) = true
                · rw [if_pos hc2]
                  rfl
                · rw [if_neg hc2]
              by_cases hcF : (next_path_vertex g src e == ctx.veid &&
                  decide (ctx.lidx ≤ ((e :: PQ).length : Int)) &&
                  (ctx.uidxInfinite ||
                    decide (((e :: PQ).length : Int) ≤ ctx.uidx))) = true
              · rw [if_pos hcF]
                simp only [Bool.and_eq_true, Bool.or_eq_true, beq_iff_eq,
                  decide_eq_true_eq] at hcF
                rcases hcF with ⟨⟨hveq, hlo⟩, hhi⟩
                refine ⟨hInv3, ?_, ?_, ?_, ?_⟩
                · rw [hPQ3]
                  exact List.cons_ne_nil _ _
                · rw [hPQ3, ← stackinv_walk_end g ctx.edgeDirection ctx.vsid
                    _ _ _ hSInew]
                  exact hveq
                · rw [hPQ3]
                  exact hlo
                · rw [hPQ3]
                  rcases hhi with h | h
                  · exact Or.inl h
                  · exact Or.inr h
              · rw [if_neg hcF]
                exact ih _ hInv3

/-- Helper: the freshly initialized traversal state satisfies the
invariant. -/
theorem initial_dfs_inv (ctx : PathFindingContext) (g : VleGraph)
    (wf : VleGraphWF g) :
    DfsInv ctx g (load_initial_dfs_queues ctx g) := by
  unfold load_initial_dfs_queues
  by_cases h : do_vsid_and_veid_exist ctx g = true
  · rw [if_pos h]
    refine ⟨fun x => Iff.rfl, List.nodup_nil, List.nodup_nil, ⟨ctx.vsid, ?_⟩⟩
    exact add_edges_stackinv ctx g wf [] [] [] ctx.vsid
      (StackInv.base [] (by intro q hq; simp at hq)) (fun x => Iff.rfl)
  · rw [if_neg h]
    exact ⟨fun x => Iff.rfl, List.nodup_nil, List.nodup_nil,
      ⟨ctx.vsid, StackInv.base [] (by intro q hq; simp at hq)⟩⟩

/-- Helper: the odd positions of the container array are exactly the
chronological edges. -/
theorem odd_elems_interleave (g : VleGraph) :
    ∀ (cs : List GraphId) (v : GraphId),
      odd_position_elems (v :: interleave_path g v cs) = cs := by
  intro cs
  induction cs with
  | nil => intro v; rfl
  | cons e rest ih =>
      intro v
      show odd_position_elems
        (v :: e :: next_path_vertex g v e :: interleave_path g
          (next_path_vertex g v e) rest) = e :: rest
      rw [show ∀ x y (l : List GraphId),
        odd_position_elems (x :: y :: l) = y :: odd_position_elems l from
        fun x y l => rfl]
      rw [ih]

/-- Helper: the last element of a nonempty container array is the walk
endpoint. -/
theorem getLast_interleave (g : VleGraph) :
    ∀ (cs : List GraphId) (v : GraphId), cs ≠ [] →
      (v :: interleave_path g v cs).getLast? = some (walk_end g v cs) := by
  intro cs
  induction cs with
  | nil => intro v h; exact absurd rfl h
  | cons e rest ih =>
      intro v h
      show (v :: e :: next_path_vertex g v e :: interleave_path g
        (next_path_vertex g v e) rest).getLast? = _
      cases rest with
      | nil => rfl
      | cons r rest2 =>
          rw [List.getLast?_cons_cons, List.getLast?_cons_cons]
          exact ih (next_path_vertex g v e) (List.cons_ne_nil _ _)

/-- Helper: every path yielded from an invariant state satisfies the
claimed properties. -/
theorem gtype_vle_yields_props (ctx : PathFindingContext) (g : VleGraph)
    (wf : VleGraphWF g) :
    ∀ (fuel : Nat) (st : DfsState), DfsInv ctx g st →
      ∀ p ∈ gtype_vle_yields ctx g fuel st,
        p.head? = some ctx.vsid ∧
        p.getLast? = some ctx.veid ∧
        (odd_position_elems p).Nodup ∧
        ctx.lidx ≤ ((odd_position_elems p).length : Int) ∧
        (ctx.uidxInfinite = true ∨
          ((odd_position_elems p).length : Int) ≤ ctx.uidx) := by
  intro fuel
  induction fuel with
  | zero =>
      intro st hInv p hp
      simp [gtype_vle_yields] at hp
  | succ fuel ih =>
      intro st hInv p hp
      have hstep := dfs_preserves ctx g wf (Nat.succ fuel) st hInv
      rw [gtype_vle_yields] at hp
      cases hout : dfs_find_a_path_between ctx g (Nat.succ fuel) st with
      | found st2 =>
          rw [hout] at hp hstep
          rcases hstep with ⟨hInv2, hne, hwalk, hlo, hhi⟩
          rcases List.mem_cons.mp hp with rfl | hmem
          · have hcs : st2.pathQueue.reverse ≠ [] := by simpa using hne
            refine ⟨rfl, ?_, ?_, ?_, ?_⟩
            · show (build_path_container g ctx.vsid st2.pathQueue).getLast? = _
              unfold build_path_container
              rw [getLast_interleave g st2.pathQueue.reverse ctx.vsid hcs, hwalk]
            · show (odd_position_elems
                (build_path_container g ctx.vsid st2.pathQueue)).Nodup
              unfold build_path_container
              rw [odd_elems_interleave]
              exact List.nodup_reverse.mpr hInv2.pathNodup
            · show ctx.lidx ≤ ((odd_position_elems
                (build_path_container g ctx.vsid st2.pathQueue)).length : Int)
              unfold build_path_container
              rw [odd_elems_interleave, List.length_reverse]
              exact hlo
            · show ctx.uidxInfinite = true ∨ ((odd_position_elems
                (build_path_container g ctx.vsid st2.pathQueue)).length : Int) ≤
                ctx.uidx
              unfold build_path_container
              rw [odd_elems_interleave, List.length_reverse]
              exact hhi
          · exact ih st2 hInv2 p hmem
      | exhausted st2 =>
          rw [hout] at hp
          simp at hp
      | fuelOut st2 =>
          rw [hout] at hp
          simp at hp
      | stuck st2 =>
          rw [hout] at hstep
          exact hstep.elim

/-- C1: every path yielded by the VLE set-returning function gtype_vle on
a well-formed finite graph starts at vsid (the container's first entry),
ends at veid (the container's last entry), repeats no edge id, and has an
edge count of at least lo and — unless the upper bound is infinite — at
most hi. -/
theorem vle_yielded_paths_properties (ctx : PathFindingContext)
    (g : VleGraph) (wf : VleGraphWF g) (fuel : Nat) (p : List GraphId)
    (hp : p ∈ gtype_vle_all_yields ctx g fuel) :
    p.head? = some ctx.vsid ∧
    p.getLast? = some ctx.veid ∧
    (odd_position_elems p).Nodup ∧
    ctx.lidx ≤ ((odd_position_elems p).length : Int) ∧
    (ctx.uidxInfinite = true ∨
      ((odd_position_elems p).length : Int) ≤ ctx.uidx) :=
  gtype_vle_yields_props ctx g wf fuel _ (initial_dfs_inv ctx g wf) p hp

/-- Witness for C1 on the one-edge graph: the single yielded container is
vertex 1, edge 100, vertex 2 and satisfies every property. -/
theorem vle_yielded_paths_properties_witness :
    [1, 100, 2] ∈ gtype_vle_all_yields witness_ctx witness_graph 10 ∧
    (([1, 100, 2] : List GraphId).head? = some witness_ctx.vsid ∧
     ([1, 100, 2] : List GraphId).getLast? = some witness_ctx.veid ∧
     (odd_position_elems [1, 100, 2]).Nodup ∧
     witness_ctx.lidx ≤ ((odd_position_elems [1, 100, 2]).length : Int) ∧
     (witness_ctx.uidxInfinite = true ∨
       ((odd_position_elems [1, 100, 2]).length : Int) ≤ witness_ctx.uidx)) := by
  have wf : VleGraphWF witness_graph := by
    refine ⟨?_, ?_, ?_⟩
    · intro v e he
      by_cases hv1 : v = 1
      · subst hv1
        simp only [witness_graph] at he
        simp at he
        subst he
        exact ⟨{ startId := 1, endId := 2 }, by simp [witness_graph], rfl⟩
      · simp [witness_graph, hv1] at he
    · intro v e he
      by_cases hv2 : v = 2
      · subst hv2
        simp only [witness_graph] at he
        simp at he
        subst he
        exact ⟨{ startId := 1, endId := 2 }, by simp [witness_graph], rfl⟩
      · simp [witness_graph, hv2] at he
    · intro v e he
      simp [witness_graph] at he
  have hmem : [1, 100, 2] ∈ gtype_vle_all_yields witness_ctx witness_graph 10 := by
    decide
  exact ⟨hmem,
    vle_yielded_paths_properties witness_ctx witness_graph wf 10 _ hmem⟩
